import Mathlib

/-!
Verification of the Emperator analysis orchestration and telemetry subsystem
(`src/emperator/analysis/__init__.py` and `src/emperator/analysis/codeql.py`).

Shallow-embedding conventions used throughout this development:

* Python `str` is Lean `String`; comparisons, lower-casing and sorting are
  implemented over `String.data` (code-point lists) so that everything is
  executable and kernel-reducible.
* `datetime` values are modelled at one-second granularity as `Int` epoch
  seconds; `datetime.isoformat` / `datetime.fromisoformat` become a decimal
  printer/parser pair.  Durations, accordingly, are `Int` seconds rather than
  floats.
* Python `dict`s are finite maps; they are represented canonically as
  assoc lists sorted by key with no duplicate keys (`pyDict` computes the
  canonical form, mirroring that Python `dict` equality ignores insertion
  order).  Since `json.dump` is always invoked with `sort_keys=True` in the
  source, JSON objects built by the embedding list their fields in ascending
  key order.
* `pathlib.Path` is an opaque string; `Path.resolve` (a filesystem operation)
  is modelled as the identity, and the process working directory is a fixed
  abstract constant.
* Fallible operations (`json.loads` failures, `KeyError`/`TypeError`/
  `ValueError` in payload rehydration, `TypeError` for malformed runner
  results) are modelled with `Option`/`Except`.
* `hashlib.sha256` is implemented concretely (FIPS 180-4) over the UTF-8
  bytes of the serialized payload, as `Nat` arithmetic modulo `2 ^ 32`.
-/

namespace Emperator

/-! ### Primitive string operations (code-point based, kernel-reducible) -/

/-- Lexicographic `≤` on code-point lists, mirroring Python `str` ordering. -/
def lexLeC : List Char → List Char → Bool
  | [], _ => true
  | _ :: _, [] => false
  | a :: as, b :: bs =>
      if a.toNat < b.toNat then true
      else if b.toNat < a.toNat then false
      else lexLeC as bs

/-- Python string `≤` (code-point lexicographic order). -/
def strLeB (a b : String) : Bool := lexLeC a.data b.data

/-- ASCII lower-casing of one character, as used by `str.lower` on the
severity labels appearing in this codebase. -/
def lowerChar (c : Char) : Char :=
  if 65 ≤ c.toNat ∧ c.toNat ≤ 90 then Char.ofNat (c.toNat + 32) else c

/-- Python `str.lower` (ASCII fragment). -/
def lowerStr (s : String) : String := String.mk (s.data.map lowerChar)

theorem lexLeC_total : ∀ a b, lexLeC a b = true ∨ lexLeC b a = true := by
  intro a
  induction a with
  | nil => intro b; left; rfl
  | cons x xs ih =>
      intro b
      cases b with
      | nil => right; rfl
      | cons y ys =>
          by_cases hxy : x.toNat < y.toNat
          · left; simp [lexLeC, hxy]
          · by_cases hyx : y.toNat < x.toNat
            · right; simp [lexLeC, hyx, hxy]
            · have := ih ys
              rcases this with h | h
              · left; simp [lexLeC, hxy, hyx, h]
              · right; simp [lexLeC, hxy, hyx, h]

theorem lexLeC_trans : ∀ a b c, lexLeC a b = true → lexLeC b c = true →
    lexLeC a c = true := by
  intro a
  induction a with
  | nil => intro b c _ _; rfl
  | cons x xs ih =>
      intro b c hab hbc
      cases b with
      | nil => simp [lexLeC] at hab
      | cons y ys =>
          cases c with
          | nil => simp [lexLeC] at hbc
          | cons z zs =>
              simp only [lexLeC] at hab hbc ⊢
              by_cases hxy : x.toNat < y.toNat
              · by_cases hyz : y.toNat < z.toNat
                · have : x.toNat < z.toNat := Nat.lt_trans hxy hyz
                  simp [this]
                · by_cases hzy : z.toNat < y.toNat
                  · simp [hyz, hzy] at hbc
                  · have hyzeq : y.toNat = z.toNat := Nat.le_antisymm
                      (Nat.le_of_not_lt hzy) (Nat.le_of_not_lt hyz)
                    have : x.toNat < z.toNat := hyzeq ▸ hxy
                    simp [this]
              · by_cases hyx : y.toNat < x.toNat
                · simp [hxy, hyx] at hab
                · have hxyeq : x.toNat = y.toNat := Nat.le_antisymm
                    (Nat.le_of_not_lt hyx) (Nat.le_of_not_lt hxy)
                  by_cases hyz : y.toNat < z.toNat
                  · have : x.toNat < z.toNat := hxyeq ▸ hyz
                    simp [this]
                  · by_cases hzy : z.toNat < y.toNat
                    · simp [hyz, hzy] at hbc
                    · have hxz : ¬ x.toNat < z.toNat := by
                        intro h; exact hyz (hxyeq ▸ h)
                      have hzx : ¬ z.toNat < x.toNat := by
                        intro h; exact hzy (hxyeq ▸ h)
                      simp [hxy, hyx, hxz, hzx, hyz, hzy] at hab hbc ⊢
                      exact ih ys zs hab hbc

theorem char_eq_of_toNat_eq {a b : Char} (h : a.toNat = b.toNat) : a = b := by
  cases a with
  | mk av ap =>
    cases b with
    | mk bv bp =>
      have : av = bv := by
        apply UInt32.ext
        exact h
      subst this
      rfl

theorem lexLeC_antisymm : ∀ a b, lexLeC a b = true → lexLeC b a = true → a = b := by
  intro a
  induction a with
  | nil =>
      intro b _ hba
      cases b with
      | nil => rfl
      | cons y ys => simp [lexLeC] at hba
  | cons x xs ih =>
      intro b hab hba
      cases b with
      | nil => simp [lexLeC] at hab
      | cons y ys =>
          simp only [lexLeC] at hab hba
          by_cases hxy : x.toNat < y.toNat
          · have : ¬ y.toNat < x.toNat := Nat.lt_asymm hxy
            simp [hxy, this] at hba
          · by_cases hyx : y.toNat < x.toNat
            · simp [hxy, hyx] at hab
            · have hxyeq : x.toNat = y.toNat := Nat.le_antisymm
                (Nat.le_of_not_lt hyx) (Nat.le_of_not_lt hxy)
              have hchar : x = y := char_eq_of_toNat_eq hxyeq
              simp [hxy, hyx] at hab hba
              have := ih ys hab hba
              rw [hchar, this]

theorem strLeB_total (a b : String) : strLeB a b = true ∨ strLeB b a = true :=
  lexLeC_total a.data b.data

theorem strLeB_trans {a b c : String} (h₁ : strLeB a b = true)
    (h₂ : strLeB b c = true) : strLeB a c = true :=
  lexLeC_trans a.data b.data c.data h₁ h₂

theorem strLeB_antisymm {a b : String} (h₁ : strLeB a b = true)
    (h₂ : strLeB b a = true) : a = b := by
  cases a with
  | mk da =>
    cases b with
    | mk db =>
      have : da = db := lexLeC_antisymm da db h₁ h₂
      rw [this]

/-! ### Sorting by a string key, modelling Python `sorted(xs, key=...)`

Python `sorted` is a stable sort; Mathlib `List.insertionSort` with a
reflexive total preorder is stable in the same sense, so it is a faithful
model. -/

/-- The sort relation `key a ≤ key b` used by `sorted(xs, key=...)`. -/
def keyLe {α : Type} (key : α → String) (a b : α) : Prop :=
  strLeB (key a) (key b) = true

instance {α : Type} (key : α → String) : DecidableRel (keyLe key) := by
  intro a b
  unfold keyLe
  infer_instance

instance {α : Type} (key : α → String) : IsTotal α (keyLe key) :=
  ⟨fun a b => strLeB_total (key a) (key b)⟩

instance {α : Type} (key : α → String) : IsTrans α (keyLe key) :=
  ⟨fun _ _ _ h₁ h₂ => strLeB_trans h₁ h₂⟩

/-- Python `sorted(xs, key=...)` for a string-valued key. -/
def pySortBy {α : Type} (key : α → String) (xs : List α) : List α :=
  List.insertionSort (keyLe key) xs

/-- Two lists that are sorted under `keyLe key` and are permutations of each
other are equal as soon as the keys occurring in them are pairwise distinct. -/
theorem sorted_perm_nodup_eq {α : Type} (key : α → String) :
    ∀ (l₁ l₂ : List α), l₁.Perm l₂ → List.Sorted (keyLe key) l₁ →
      List.Sorted (keyLe key) l₂ → (l₁.map key).Nodup → l₁ = l₂ := by
  intro l₁
  induction l₁ with
  | nil =>
      intro l₂ hperm _ _ _
      exact (List.Perm.nil_eq hperm).symm ▸ rfl
  | cons a t₁ ih =>
      intro l₂ hperm hs₁ hs₂ hnd
      cases l₂ with
      | nil => exact absurd hperm.symm (by simp)
      | cons b t₂ =>
          have hamem : a ∈ b :: t₂ := hperm.mem_iff.mp (List.mem_cons_self a t₁)
          have hbmem : b ∈ a :: t₁ := hperm.symm.mem_iff.mp (List.mem_cons_self b t₂)
          have hba : keyLe key b a := by
            rcases List.mem_cons.mp hamem with h | h
            · rw [h]; rcases strLeB_total (key b) (key b) with hh | hh <;> exact hh
            · exact (List.sorted_cons.mp hs₂).1 a h
          have hab : keyLe key a b := by
            rcases List.mem_cons.mp hbmem with h | h
            · rw [h]; rcases strLeB_total (key a) (key a) with hh | hh <;> exact hh
            · exact (List.sorted_cons.mp hs₁).1 b h
          have hkey : key a = key b := strLeB_antisymm hab hba
          have hnd' : key a ∉ t₁.map key ∧ (t₁.map key).Nodup := by
            rw [List.map_cons] at hnd
            exact List.nodup_cons.mp hnd
          have habeq : a = b := by
            rcases List.mem_cons.mp hbmem with h | h
            · exact h.symm
            · exfalso
              have hkmem : key a ∈ t₁.map key := by
                rw [hkey]; exact List.mem_map_of_mem key h
              exact hnd'.1 hkmem
          subst habeq
          have htperm : t₁.Perm t₂ := hperm.cons_inv
          have := ih t₂ htperm (List.sorted_cons.mp hs₁).2 (List.sorted_cons.mp hs₂).2
            hnd'.2
          rw [this]

/-- Sorting by a key is insensitive to the input order whenever the keys are
pairwise distinct. -/
theorem pySortBy_perm_eq {α : Type} (key : α → String) {l₁ l₂ : List α}
    (hperm : l₁.Perm l₂) (hnd : (l₁.map key).Nodup) :
    pySortBy key l₁ = pySortBy key l₂ := by
  apply sorted_perm_nodup_eq key
  · exact (List.perm_insertionSort (keyLe key) l₁).trans
      (hperm.trans (List.perm_insertionSort (keyLe key) l₂).symm)
  · exact List.sorted_insertionSort (keyLe key) l₁
  · exact List.sorted_insertionSort (keyLe key) l₂
  · exact ((List.perm_insertionSort (keyLe key) l₁).map key).nodup_iff.mpr hnd

end Emperator

namespace Emperator

/-! ### Decimal printing and parsing

`datetime` values are modelled as `Int` epoch seconds, so
`datetime.isoformat` / `datetime.fromisoformat` become the decimal
printer/parser pair below, and JSON numerals reuse the same printer. -/

/-- The character for a single decimal digit. -/
def digitChar (d : Nat) : Char := Char.ofNat (48 + d)

/-- Fuel-driven decimal digit expansion (structural recursion so that the
kernel can evaluate it; the fuel is always sufficient). -/
def natDigitsGo (fuel n : Nat) : List Char :=
  match fuel with
  | 0 => []
  | fuel + 1 =>
      if n < 10 then [digitChar n]
      else natDigitsGo fuel (n / 10) ++ [digitChar (n % 10)]

/-- Decimal digit characters of a natural number, most significant first. -/
def natDigits (n : Nat) : List Char := natDigitsGo (n + 1) n

theorem natDigitsGo_fuel (n : Nat) : ∀ f₁ f₂, n < f₁ → n < f₂ →
    natDigitsGo f₁ n = natDigitsGo f₂ n := by
  induction n using Nat.strong_induction_on with
  | _ n ih =>
      intro f₁ f₂ h₁ h₂
      match f₁, f₂ with
      | g₁ + 1, g₂ + 1 =>
          show natDigitsGo (g₁ + 1) n = natDigitsGo (g₂ + 1) n
          by_cases h : n < 10
          · simp [natDigitsGo, h]
          · have hdiv : n / 10 < n := Nat.div_lt_self (by omega) (by omega)
            have hg₁ : n / 10 < g₁ := by omega
            have hg₂ : n / 10 < g₂ := by omega
            simp only [natDigitsGo, h, if_false]
            rw [ih (n / 10) hdiv g₁ g₂ hg₁ hg₂]

/-- The defining recurrence of `natDigits`. -/
theorem natDigits_eq (n : Nat) :
    natDigits n = if n < 10 then [digitChar n]
      else natDigits (n / 10) ++ [digitChar (n % 10)] := by
  show natDigitsGo (n + 1) n = _
  by_cases h : n < 10
  · simp [natDigitsGo, h]
  · have hdiv : n / 10 < n := Nat.div_lt_self (by omega) (by omega)
    simp only [natDigitsGo, h, if_false]
    rw [natDigitsGo_fuel (n / 10) n (n / 10 + 1) (by omega) (by omega)]
    rfl

/-- Decimal rendering of a natural number. -/
def printNat (n : Nat) : String := String.mk (natDigits n)

/-- Decimal rendering of an integer. -/
def printInt : Int → String
  | .ofNat m => printNat m
  | .negSucc m => "-" ++ printNat (m + 1)

/-- Numeric value of a decimal digit character, if it is one. -/
def digitVal (c : Char) : Option Nat :=
  if 48 ≤ c.toNat ∧ c.toNat ≤ 57 then some (c.toNat - 48) else none

/-- Accumulating decimal parser over characters. -/
def parseGo : List Char → Nat → Option Nat
  | [], acc => some acc
  | c :: cs, acc =>
      match digitVal c with
      | some d => parseGo cs (acc * 10 + d)
      | none => none

/-- Parse a non-empty all-digit character list. -/
def parseNatChars : List Char → Option Nat
  | [] => none
  | cs => parseGo cs 0

/-- Parse a decimal integer with an optional leading minus sign. -/
def parseIntStr (s : String) : Option Int :=
  match s.data with
  | '-' :: rest => (parseNatChars rest).map (fun n => -(n : Int))
  | cs => (parseNatChars cs).map Int.ofNat

theorem parseGo_append (cs ds : List Char) (acc : Nat) :
    parseGo (cs ++ ds) acc =
      match parseGo cs acc with
      | some m => parseGo ds m
      | none => none := by
  induction cs generalizing acc with
  | nil => simp [parseGo]
  | cons c cs ih =>
      simp only [List.cons_append, parseGo]
      cases digitVal c with
      | none => rfl
      | some d => exact ih (acc * 10 + d)

theorem digitVal_digitChar {d : Nat} (h : d < 10) :
    digitVal (digitChar d) = some d := by
  interval_cases d <;> rfl

theorem parseGo_natDigits (n : Nat) :
    ∀ acc, parseGo (natDigits n) acc = some (acc * 10 ^ (natDigits n).length + n) := by
  induction n using Nat.strong_induction_on with
  | _ n ih =>
      intro acc
      by_cases h : n < 10
      · rw [natDigits_eq]
        simp only [h, if_pos]
        simp [parseGo, digitVal_digitChar h]
      · rw [natDigits_eq]
        simp only [h, if_false]
        rw [parseGo_append]
        have hdiv : n / 10 < n := Nat.div_lt_self (by omega) (by omega)
        rw [ih (n / 10) hdiv acc]
        simp only [parseGo, digitVal_digitChar (Nat.mod_lt n (by omega)), List.length_append,
          List.length_singleton, pow_succ]
        congr 1
        have hmod : n / 10 * 10 + n % 10 = n := by omega
        calc (acc * 10 ^ (natDigits (n / 10)).length + n / 10) * 10 + n % 10
            = acc * (10 ^ (natDigits (n / 10)).length * 10) + (n / 10 * 10 + n % 10) := by
              ring
          _ = acc * (10 ^ (natDigits (n / 10)).length * 10) + n := by rw [hmod]

theorem natDigits_ne_nil (n : Nat) : natDigits n ≠ [] := by
  rw [natDigits_eq]
  by_cases h : n < 10
  · simp [h]
  · simp [h]

theorem parseNatChars_natDigits (n : Nat) : parseNatChars (natDigits n) = some n := by
  have hne := natDigits_ne_nil n
  cases hnd : natDigits n with
  | nil => exact absurd hnd hne
  | cons c cs =>
      show parseGo (c :: cs) 0 = some n
      rw [← hnd]
      rw [parseGo_natDigits n 0]
      simp

theorem digitChar_ne_minus {d : Nat} (h : d < 10) : digitChar d ≠ '-' := by
  interval_cases d <;> decide

theorem parseIntStr_head_ne (c : Char) (cs : List Char) (h : c ≠ '-') :
    parseIntStr (String.mk (c :: cs)) = (parseNatChars (c :: cs)).map Int.ofNat := by
  unfold parseIntStr
  split
  · rename_i rest heq
    exact absurd (List.head_eq_of_cons_eq heq) h
  · rfl

theorem parseIntStr_printInt (n : Int) : parseIntStr (printInt n) = some n := by
  cases n with
  | ofNat m =>
      show parseIntStr (printNat m) = some (Int.ofNat m)
      have hne := natDigits_ne_nil m
      cases hnd : natDigits m with
      | nil => exact absurd hnd hne
      | cons c cs =>
          have hcm : c ≠ '-' := by
            intro hc
            have hp := parseNatChars_natDigits m
            rw [hnd, hc] at hp
            have hnone : parseNatChars ('-' :: cs) = none := by
              show parseGo ('-' :: cs) 0 = none
              simp [parseGo, show digitVal '-' = none from rfl]
            rw [hnone] at hp
            exact Option.noConfusion hp
          have hpr : printNat m = String.mk (c :: cs) := by rw [printNat, hnd]
          rw [hpr, parseIntStr_head_ne c cs hcm, ← hnd, parseNatChars_natDigits]
          rfl
  | negSucc m =>
      show parseIntStr ("-" ++ printNat (m + 1)) = some (Int.negSucc m)
      have hdata : ("-" ++ printNat (m + 1)).data = '-' :: natDigits (m + 1) := rfl
      unfold parseIntStr
      rw [hdata]
      simp only [parseNatChars_natDigits (m + 1)]
      simp [Int.negSucc_eq]

end Emperator

namespace Emperator

/-! ### JSON values

`Json` models the values handled by `json.loads` / `json.dump`.  Numbers are
modelled as integers (the payloads produced by this codebase contain integral
numerals under the time model above).  JSON objects built by the embedding
always list their fields in ascending key order, reflecting that every
`json.dumps`/`json.dump` call in the source passes `sort_keys=True` and that
Python `dict` equality is insertion-order independent. -/

inductive Json where
  | null
  | bool (b : Bool)
  | num (n : Int)
  | str (s : String)
  | arr (items : List Json)
  | obj (fields : List (String × Json))

/-- Join strings with a separator. -/
def joinSep (sep : String) : List String → String
  | [] => ""
  | [x] => x
  | x :: y :: xs => x ++ sep ++ joinSep sep (y :: xs)

/-- Hexadecimal digit character. -/
def hexChar (n : Nat) : Char :=
  if n < 10 then Char.ofNat (48 + n) else Char.ofNat (87 + n)

/-- Four-digit hexadecimal rendering, as in a JSON `\uXXXX` escape. -/
def hex4 (n : Nat) : List Char :=
  [hexChar ((n >>> 12) % 16), hexChar ((n >>> 8) % 16),
   hexChar ((n >>> 4) % 16), hexChar (n % 16)]

/-- JSON string escaping for one character (`ensure_ascii` style: quote and
backslash get a backslash escape, anything outside printable ASCII becomes a
`\uXXXX` escape; the payloads fingerprinted by this codebase are printable
ASCII, where this coincides exactly with `json.dumps`). -/
def escapeChar (c : Char) : List Char :=
  if c = '"' then ['\\', '"']
  else if c = '\\' then ['\\', '\\']
  else if c.toNat < 32 ∨ 126 < c.toNat then '\\' :: 'u' :: hex4 c.toNat
  else [c]

/-- JSON string-body escaping. -/
def jsonEscape (s : String) : String := String.mk (s.data.flatMap escapeChar)

/-- Fuel-driven serialization of a `Json` value with `separators=(",", ":")`,
i.e. no incidental whitespace, exactly as `json.dumps(payload,
sort_keys=True, separators=(",", ":"))` does (key sorting is an invariant of
the constructed objects, see above).  Structural recursion on fuel keeps the
function kernel-evaluable; `jsonRender` supplies ample fuel. -/
def jsonRenderGo : Nat → Json → String
  | 0, _ => ""
  | fuel + 1, j =>
      match j with
      | .null => "null"
      | .bool true => "true"
      | .bool false => "false"
      | .num n => printInt n
      | .str s => "\"" ++ jsonEscape s ++ "\""
      | .arr items => "[" ++ joinSep "," (items.map fun x => jsonRenderGo fuel x) ++ "]"
      | .obj fields =>
          "\x7b" ++ joinSep ","
            (fields.map fun x => "\"" ++ jsonEscape x.1 ++ "\":" ++ jsonRenderGo fuel x.2) ++
            "\x7d"

/-- Recursion fuel dwarfing the nesting depth of any JSON value handled by
this codebase (fingerprint payloads and telemetry lines nest at most six
levels deep). -/
def jsonFuel : Nat := 1000000

/-- Serialize a `Json` value as compact canonical JSON text. -/
def jsonRender (j : Json) : String := jsonRenderGo jsonFuel j

/-- Fuel-driven Python `repr` of a JSON-shaped value (used by `str` on
containers). -/
def pyReprGo : Nat → Json → String
  | 0, _ => ""
  | fuel + 1, j =>
      match j with
      | .null => "None"
      | .bool true => "True"
      | .bool false => "False"
      | .num n => printInt n
      | .str s => "\x27" ++ s ++ "\x27"
      | .arr items => "[" ++ joinSep ", " (items.map fun x => pyReprGo fuel x) ++ "]"
      | .obj fields =>
          "\x7b" ++ joinSep ", "
            (fields.map fun x => "\x27" ++ x.1 ++ "\x27: " ++ pyReprGo fuel x.2) ++
            "\x7d"

/-- Python `repr` of a JSON-shaped value. -/
def pyRepr (j : Json) : String := pyReprGo jsonFuel j

/-- Python `str` applied to a JSON-shaped value (`str(x)` in
`TelemetryEvent.from_payload`'s normalisation comprehension). -/
def pyStr : Json → String
  | .str s => s
  | j => pyRepr j

/-! ### Python `dict` canonical form -/

/-- One step of building a `dict` from pairs: a repeated key overwrites the
previous value, a fresh key is appended. -/
def upsertEntry (acc : List (String × String)) (kv : String × String) :
    List (String × String) :=
  if acc.any (fun p => p.1 == kv.1) then
    acc.map (fun p => if p.1 == kv.1 then (p.1, kv.2) else p)
  else acc ++ [kv]

/-- Canonical form of a Python `dict` over strings: last occurrence of each
key wins, entries sorted by key (Python `dict` equality is content-based, so
the sorted form is the canonical representative). -/
def pyDict (l : List (String × String)) : List (String × String) :=
  pySortBy Prod.fst (l.foldl upsertEntry [])

/-! ### SHA-256 (FIPS 180-4) over `Nat` arithmetic modulo `2 ^ 32` -/

/-- `2 ^ 32`. -/
def M32 : Nat := 4294967296

/-- `2 ^ 32 - 1`, the all-ones 32-bit mask. -/
def mask32 : Nat := 4294967295

/-- 32-bit modular addition. -/
def add32 (a b : Nat) : Nat := (a + b) % M32

/-- 32-bit right rotation. -/
def rotr32 (x n : Nat) : Nat := ((x >>> n) ||| (x <<< (32 - n))) % M32

/-- The SHA-256 round constants. -/
def shaK : List Nat :=
  [1116352408, 1899447441, 3049323471, 3921009573, 961987163,
   1508970993, 2453635748, 2870763221, 3624381080, 310598401,
   607225278, 1426881987, 1925078388, 2162078206, 2614888103,
   3248222580, 3835390401, 4022224774, 264347078, 604807628,
   770255983, 1249150122, 1555081692, 1996064986, 2554220882,
   2821834349, 2952996808, 3210313671, 3336571891, 3584528711,
   113926993, 338241895, 666307205, 773529912, 1294757372,
   1396182291, 1695183700, 1986661051, 2177026350, 2456956037,
   2730485921, 2820302411, 3259730800, 3345764771, 3516065817,
   3600352804, 4094571909, 275423344, 430227734, 506948616,
   659060556, 883997877, 958139571, 1322822218, 1537002063,
   1747873779, 1955562222, 2024104815, 2227730452, 2361852424,
   2428436474, 2756734187, 3204031479, 3329325298]

/-- The SHA-256 initial hash state. -/
def shaH0 : List Nat :=
  [1779033703, 3144134277, 1013904242, 2773480762,
   1359893119, 2600822924, 528734635, 1541459225]

/-- Big-endian byte decomposition (`k` bytes). -/
def beBytes : Nat → Nat → List Nat
  | 0, _ => []
  | k + 1, v => beBytes k (v >>> 8) ++ [v % 256]

/-- SHA-256 message padding. -/
def padBytes (msg : List Nat) : List Nat :=
  msg ++ [128] ++ List.replicate ((119 - msg.length % 64) % 64) 0 ++
    beBytes 8 (msg.length * 8)

/-- Group bytes into big-endian 32-bit words. -/
def toWords : List Nat → List Nat
  | a :: b :: c :: d :: rest => (((a * 256 + b) * 256 + c) * 256 + d) :: toWords rest
  | _ => []

/-- Group a word list into 16-word blocks (fuel-driven structural
recursion; `ws.length` is always sufficient fuel). -/
def toBlocksGo : Nat → List Nat → List (List Nat)
  | 0, _ => []
  | fuel + 1, ws =>
      if ws.isEmpty then [] else ws.take 16 :: toBlocksGo fuel (ws.drop 16)

/-- Group a word list into 16-word blocks. -/
def toBlocks (ws : List Nat) : List (List Nat) := toBlocksGo ws.length ws

/-- SHA-256 lowercase sigma-0. -/
def ssig0 (x : Nat) : Nat := (rotr32 x 7) ^^^ (rotr32 x 18) ^^^ (x >>> 3)

/-- SHA-256 lowercase sigma-1. -/
def ssig1 (x : Nat) : Nat := (rotr32 x 17) ^^^ (rotr32 x 19) ^^^ (x >>> 10)

/-- SHA-256 uppercase sigma-0. -/
def bsig0 (x : Nat) : Nat := (rotr32 x 2) ^^^ (rotr32 x 13) ^^^ (rotr32 x 22)

/-- SHA-256 uppercase sigma-1. -/
def bsig1 (x : Nat) : Nat := (rotr32 x 6) ^^^ (rotr32 x 11) ^^^ (rotr32 x 25)

/-- One message-schedule extension step. -/
def extendStep (w : List Nat) : List Nat :=
  w ++ [add32 (add32 (ssig1 (w[w.length - 2]!)) (w[w.length - 7]!))
          (add32 (ssig0 (w[w.length - 15]!)) (w[w.length - 16]!))]

/-- Iterate the message-schedule extension. -/
def extendLoop : Nat → List Nat → List Nat
  | 0, w => w
  | k + 1, w => extendLoop k (extendStep w)

/-- Expand a 16-word block to the 64-word message schedule. -/
def scheduleW (block : List Nat) : List Nat := extendLoop 48 block

/-- SHA-256 choice function. -/
def chV (e f g : Nat) : Nat := (e &&& f) ^^^ ((e ^^^ mask32) &&& g)

/-- SHA-256 majority function. -/
def majV (a b c : Nat) : Nat := (a &&& b) ^^^ (a &&& c) ^^^ (b &&& c)

/-- One SHA-256 compression round over the 8-register state. -/
def compressRound (st : List Nat) (kw : Nat × Nat) : List Nat :=
  match st with
  | [a, b, c, d, e, f, g, h] =>
      let t1 := add32 (add32 (add32 h (bsig1 e)) (add32 (chV e f g) kw.1)) kw.2
      let t2 := add32 (bsig0 a) (majV a b c)
      [add32 t1 t2, a, b, c, add32 d t1, e, f, g]
  | other => other

/-- Process one 512-bit block. -/
def processBlock (h : List Nat) (block : List Nat) : List Nat :=
  let st := (shaK.zip (scheduleW block)).foldl compressRound h
  (h.zip st).map (fun p => add32 p.1 p.2)

/-- SHA-256 of a byte sequence, as the 8-word state. -/
def sha256Words (msg : List Nat) : List Nat :=
  (toBlocks (toWords (padBytes msg))).foldl processBlock shaH0

/-- Lowercase hexadecimal rendering of one 32-bit word. -/
def wordHex (w : Nat) : List Char :=
  [hexChar ((w >>> 28) % 16), hexChar ((w >>> 24) % 16), hexChar ((w >>> 20) % 16),
   hexChar ((w >>> 16) % 16), hexChar ((w >>> 12) % 16), hexChar ((w >>> 8) % 16),
   hexChar ((w >>> 4) % 16), hexChar (w % 16)]

/-- UTF-8 encoding of one character. -/
def utf8Bytes (c : Char) : List Nat :=
  let n := c.toNat
  if n < 128 then [n]
  else if n < 2048 then [192 + n / 64, 128 + n % 64]
  else if n < 65536 then [224 + n / 4096, 128 + (n / 64) % 64, 128 + n % 64]
  else [240 + n / 262144, 128 + (n / 4096) % 64, 128 + (n / 64) % 64, 128 + n % 64]

/-- `hashlib.sha256(data.encode("utf-8")).hexdigest()`. -/
def sha256hex (s : String) : String :=
  String.mk ((sha256Words (s.data.flatMap utf8Bytes)).flatMap wordHex)

set_option maxRecDepth 100000 in
/-- Sanity anchor: the FIPS 180-4 test vector for the string `abc`. -/
theorem sha256hex_abc :
    sha256hex "abc" = "ba7816bf8f01cfea414140de5dae2223b00361a396177a9cb410ff61f20015ad" := by
  decide

end Emperator

namespace Emperator

/-! ### Plan model (`analysis/__init__.py`, frozen dataclasses) -/

/-- Summary of source files detected for a language. -/
structure LanguageSummary where
  language : String
  file_count : Nat
  sample_files : List String
deriving DecidableEq

/-- Availability of an analyzer or supporting CLI tool. -/
structure ToolStatus where
  name : String
  available : Bool
  location : Option String
  hint : String
deriving DecidableEq

/-- Actionable recommendation produced during analysis planning. -/
structure AnalysisHint where
  topic : String
  guidance : String
deriving DecidableEq

/-- Aggregated view of language coverage and analyzer readiness. -/
structure AnalysisReport where
  languages : List LanguageSummary
  tool_statuses : List ToolStatus
  hints : List AnalysisHint
  project_root : Option String := none
deriving DecidableEq

/-- Concrete command developers can execute for an analyzer. -/
structure AnalyzerCommand where
  command : List String
  description : String
  severity : Option String := none
deriving DecidableEq

/-- Execution plan for a specific analyzer tool. -/
structure AnalyzerPlan where
  tool : String
  ready : Bool
  reason : String
  steps : List AnalyzerCommand
deriving DecidableEq

/-- Telemetry emitted for a single analyzer command execution.  `metadata`
is a Python `dict[str, str] | None`, kept in the canonical sorted form of
`pyDict` (dict equality is content-based). -/
structure TelemetryEvent where
  tool : String
  command : List String
  exit_code : Int
  duration_seconds : Int
  timestamp : Int
  metadata : Option (List (String × String)) := none
deriving DecidableEq

/-- Aggregated telemetry for a full analyzer execution plan. -/
structure TelemetryRun where
  fingerprint : String
  project_root : String
  started_at : Int
  completed_at : Int
  events : List TelemetryEvent
  notes : List String := []
deriving DecidableEq

/-- `TelemetryRun.duration_seconds`:
`max(completed_at.timestamp() - started_at.timestamp(), 0.0)`. -/
def TelemetryRun.duration_seconds (r : TelemetryRun) : Int :=
  max (r.completed_at - r.started_at) 0

/-- `TelemetryRun.successful`: `all(event.exit_code == 0 for event in events)`. -/
def TelemetryRun.successful (r : TelemetryRun) : Bool :=
  r.events.all (fun event => event.exit_code == 0)

/-! ### Fingerprinting (`fingerprint_analysis`) -/

/-- Abstract constant for the process working directory: what `Path.cwd()`
returns and what `Path()` (the empty relative path) resolves to. -/
def cwdPath : String := "/workspace"

/-- `(report.project_root or Path()).resolve()` under the path model
(resolution of an already-absolute path string is the identity). -/
def resolveRoot (p : Option String) : String :=
  match p with
  | some s => s
  | none => cwdPath

/-- `None`-aware JSON serialization of an optional string. -/
def optStrJson : Option String → Json
  | some v => Json.str v
  | none => Json.null

/-- The per-language entry of the fingerprint payload (keys in the sorted
order `json.dumps(..., sort_keys=True)` emits). -/
def serializeLanguage (s : LanguageSummary) : Json :=
  Json.obj [("file_count", Json.num s.file_count),
            ("language", Json.str s.language),
            ("sample_files", Json.arr (s.sample_files.map Json.str))]

/-- The per-tool-status entry of the fingerprint payload. -/
def serializeToolStatus (s : ToolStatus) : Json :=
  Json.obj [("available", Json.bool s.available),
            ("location", optStrJson s.location),
            ("name", Json.str s.name)]

/-- The per-step entry of the fingerprint payload. -/
def serializeStep (s : AnalyzerCommand) : Json :=
  Json.obj [("command", Json.arr (s.command.map Json.str)),
            ("description", Json.str s.description),
            ("severity", optStrJson s.severity)]

/-- The per-plan entry of the fingerprint payload. -/
def serializePlan (p : AnalyzerPlan) : Json :=
  Json.obj [("ready", Json.bool p.ready),
            ("reason", Json.str p.reason),
            ("steps", Json.arr (p.steps.map serializeStep)),
            ("tool", Json.str p.tool)]

/-- The canonical payload built by `fingerprint_analysis` before hashing:
sorted-by-name languages, sorted-by-name tool statuses, sorted-by-tool
plans, the metadata map, and the resolved project root. -/
def fingerprintPayload (report : AnalysisReport) (plans : List AnalyzerPlan)
    (metadata : List (String × String)) : Json :=
  Json.obj
    [("languages",
      Json.arr ((pySortBy LanguageSummary.language report.languages).map serializeLanguage)),
     ("metadata", Json.obj ((pyDict metadata).map fun kv => (kv.1, Json.str kv.2))),
     ("plans", Json.arr ((pySortBy AnalyzerPlan.tool plans).map serializePlan)),
     ("project_root", Json.str (resolveRoot report.project_root)),
     ("tool_statuses",
      Json.arr ((pySortBy ToolStatus.name report.tool_statuses).map serializeToolStatus))]

/-- `fingerprint_analysis`: SHA-256 hex digest of the canonical JSON
serialization of the payload. -/
def fingerprint_analysis (report : AnalysisReport) (plans : List AnalyzerPlan)
    (metadata : List (String × String) := []) : String :=
  sha256hex (jsonRender (fingerprintPayload report plans metadata))

end Emperator

namespace Emperator

/-! ### Injectivity of the fingerprint serialization (payload level) -/

theorem optStrJson_inj : Function.Injective optStrJson := by
  intro a b h
  cases a <;> cases b <;> simp [optStrJson] at h <;> simp [h]

theorem jsonStr_inj : Function.Injective Json.str := by
  intro a b h
  injection h

theorem serializeStep_inj : Function.Injective serializeStep := by
  intro s t h
  cases s with
  | mk cs ds vs =>
    cases t with
    | mk ct dt vt =>
      simp only [serializeStep, Json.obj.injEq, List.cons.injEq, Prod.mk.injEq, Json.arr.injEq,
        Json.str.injEq, true_and, and_true] at h
      obtain ⟨hcmd, hdesc, hsev⟩ := h
      have h1 : cs = ct := List.map_injective_iff.mpr jsonStr_inj hcmd
      have h2 : vs = vt := optStrJson_inj hsev
      simp [h1, hdesc, h2]

theorem serializePlan_inj : Function.Injective serializePlan := by
  intro p q h
  cases p with
  | mk tp rp np sp =>
    cases q with
    | mk tq rq nq sq =>
      simp only [serializePlan, Json.obj.injEq, List.cons.injEq, Prod.mk.injEq, Json.arr.injEq,
        Json.str.injEq, Json.bool.injEq, true_and, and_true] at h
      obtain ⟨hready, hreason, hsteps, htool⟩ := h
      have h1 : sp = sq := List.map_injective_iff.mpr serializeStep_inj hsteps
      simp [hready, hreason, h1, htool]

/-- Replacing the `i`-th element of a list by a different value destroys the
multiset of elements. -/
theorem perm_set_ne {α : Type} [DecidableEq α] (l : List α) (i : Nat) (hi : i < l.length)
    (a : α) (hne : a ≠ l.get ⟨i, hi⟩) : ¬ (l.set i a).Perm l := by
  intro hperm
  have hc := hperm.count_eq (l.get ⟨i, hi⟩)
  rw [List.count_set (h := hi)] at hc
  have hmem : l.get ⟨i, hi⟩ ∈ l := List.get_mem l i hi
  have hcount : 0 < List.count (l.get ⟨i, hi⟩) l := List.count_pos_iff.mpr hmem
  have hgi : l[i] = l.get ⟨i, hi⟩ := rfl
  rw [hgi] at hc
  simp only [beq_self_eq_true, if_pos, beq_iff_eq] at hc
  rw [if_neg hne] at hc
  omega

end Emperator

namespace Emperator

/-! ### C1: fingerprint determinism -/

/-- Concrete counterexample data for C1: two language summaries sharing the
name `python` but differing in file count. -/
def c1langA : LanguageSummary := ⟨"python", 1, []⟩

/-- Second summary with the duplicate language name. -/
def c1langB : LanguageSummary := ⟨"python", 2, []⟩

/-- Report listing the duplicate-named summaries in one order. -/
def c1repA : AnalysisReport := ⟨[c1langA, c1langB], [], [], some "/r"⟩

/-- The same report with the two summaries swapped. -/
def c1repB : AnalysisReport := ⟨[c1langB, c1langA], [], [], some "/r"⟩

set_option maxRecDepth 400000 in
/-- C1, counterexample to the claim as stated: `fingerprint_analysis` is NOT
invariant under permutation of the languages for every report.  Python
`sorted` is stable, so two `LanguageSummary` entries sharing the same
`language` name keep their insertion order in the canonical payload, and
swapping them changes the SHA-256 digest. -/
theorem C1_counterexample_duplicate_language_names :
    c1repA.languages.Perm c1repB.languages ∧
    c1repA.tool_statuses = c1repB.tool_statuses ∧
    c1repA.hints = c1repB.hints ∧
    c1repA.project_root = c1repB.project_root ∧
    fingerprint_analysis c1repA [] [] ≠ fingerprint_analysis c1repB [] [] := by
  refine ⟨List.Perm.swap c1langB c1langA [], rfl, rfl, rfl, ?_⟩
  decide

/-- C1, amended: (i) the fingerprint is invariant under permutation of the
languages, tool statuses and plans whenever the language names, tool-status
names and plan tool names are pairwise distinct (which holds for every
report and plan collection this program constructs); (ii) replacing any step
of any plan by a different step (different command argv, description or
severity) changes the canonical pre-hash payload that `fingerprint_analysis`
feeds to SHA-256. -/
theorem C1_fingerprint_determinism :
    (∀ (r₁ r₂ : AnalysisReport) (plans₁ plans₂ : List AnalyzerPlan)
       (metadata : List (String × String)),
      r₁.languages.Perm r₂.languages →
      r₁.tool_statuses.Perm r₂.tool_statuses →
      plans₁.Perm plans₂ →
      r₁.project_root = r₂.project_root →
      (r₁.languages.map LanguageSummary.language).Nodup →
      (r₁.tool_statuses.map ToolStatus.name).Nodup →
      (plans₁.map AnalyzerPlan.tool).Nodup →
      fingerprint_analysis r₁ plans₁ metadata = fingerprint_analysis r₂ plans₂ metadata) ∧
    (∀ (report : AnalysisReport) (metadata : List (String × String))
       (plans : List AnalyzerPlan) (i j : Nat) (hi : i < plans.length)
       (hj : j < (plans.get ⟨i, hi⟩).steps.length) (s' : AnalyzerCommand),
      s' ≠ (plans.get ⟨i, hi⟩).steps.get ⟨j, hj⟩ →
      fingerprintPayload report
          (plans.set i
            { plans.get ⟨i, hi⟩ with steps := (plans.get ⟨i, hi⟩).steps.set j s' })
          metadata ≠
        fingerprintPayload report plans metadata) := by
  constructor
  · intro r₁ r₂ plans₁ plans₂ metadata hlang htool hplan hroot hndl hndt hndp
    unfold fingerprint_analysis
    suffices h : fingerprintPayload r₁ plans₁ metadata = fingerprintPayload r₂ plans₂ metadata by
      rw [h]
    unfold fingerprintPayload
    rw [pySortBy_perm_eq LanguageSummary.language hlang hndl,
        pySortBy_perm_eq ToolStatus.name htool hndt,
        pySortBy_perm_eq AnalyzerPlan.tool hplan hndp, hroot]
  · intro report metadata plans i j hi hj s' hne heq
    unfold fingerprintPayload at heq
    simp only [Json.obj.injEq, List.cons.injEq, Prod.mk.injEq, Json.arr.injEq, true_and,
      and_true] at heq
    have hsort := List.map_injective_iff.mpr serializePlan_inj heq
    set p' : AnalyzerPlan :=
      { plans.get ⟨i, hi⟩ with steps := (plans.get ⟨i, hi⟩).steps.set j s' } with hp'
    have hperm : (plans.set i p').Perm plans := by
      have h₁ : (pySortBy AnalyzerPlan.tool (plans.set i p')).Perm (plans.set i p') :=
        List.perm_insertionSort _ _
      have h₂ : (pySortBy AnalyzerPlan.tool plans).Perm plans :=
        List.perm_insertionSort _ _
      rw [← hsort] at h₂
      exact h₁.symm.trans h₂
    have hpne : p' ≠ plans.get ⟨i, hi⟩ := by
      intro hcontra
      have hsteps : (plans.get ⟨i, hi⟩).steps.set j s' = (plans.get ⟨i, hi⟩).steps := by
        have := congrArg AnalyzerPlan.steps hcontra
        simpa [hp'] using this
      have h1 : ((plans.get ⟨i, hi⟩).steps.set j s')[j]? = some s' :=
        List.getElem?_set_eq hj
      rw [hsteps, List.getElem?_eq_getElem hj] at h1
      have : (plans.get ⟨i, hi⟩).steps.get ⟨j, hj⟩ = s' := by
        rw [List.get_eq_getElem]
        exact Option.some.inj h1
      exact hne this.symm
    exact perm_set_ne plans i hi p' hpne hperm

end Emperator

namespace Emperator

/-- Witness data: two distinct-named language summaries. -/
def c1wLangX : LanguageSummary := ⟨"go", 1, []⟩

/-- Witness data: second summary with a distinct name. -/
def c1wLangY : LanguageSummary := ⟨"python", 2, []⟩

/-- Witness report in one insertion order. -/
def c1wRep1 : AnalysisReport := ⟨[c1wLangX, c1wLangY], [], [], some "/r"⟩

/-- Witness report with the languages swapped. -/
def c1wRep2 : AnalysisReport := ⟨[c1wLangY, c1wLangX], [], [], some "/r"⟩

/-- Witness step before modification. -/
def c1wStepA : AnalyzerCommand := ⟨["echo", "a"], "step", none⟩

/-- Witness step with a different command argv. -/
def c1wStepB : AnalyzerCommand := ⟨["echo", "b"], "step", none⟩

/-- Witness plan containing the original step. -/
def c1wPlan : AnalyzerPlan := ⟨"tool", true, "ok", [c1wStepA]⟩

/-- Witness plan containing the modified step. -/
def c1wPlanB : AnalyzerPlan := ⟨"tool", true, "ok", [c1wStepB]⟩

/-- Witness for C1: both halves of the amended claim applied at concrete
inputs. -/
theorem C1_fingerprint_determinism_witness :
    (fingerprint_analysis c1wRep1 [c1wPlan] [] = fingerprint_analysis c1wRep2 [c1wPlan] []) ∧
    (c1wStepB ≠ c1wStepA ∧
      fingerprintPayload c1wRep1 [c1wPlanB] [] ≠ fingerprintPayload c1wRep1 [c1wPlan] []) := by
  constructor
  · exact C1_fingerprint_determinism.1 c1wRep1 c1wRep2 [c1wPlan] [c1wPlan] []
      (List.Perm.swap c1wLangY c1wLangX []) (List.Perm.refl _) (List.Perm.refl _) rfl
      (by decide) (by decide) (by decide)
  · exact ⟨by decide, C1_fingerprint_determinism.2 c1wRep1 [] [c1wPlan] 0 0 (by decide)
      (by decide) c1wStepB (by decide)⟩

end Emperator

namespace Emperator

/-! ### Execution engine (`execute_analysis_plan` and helpers)

The injected `Runner` capability is a function from a command and working
directory to an outcome: either a result object (a plain integer, an object
exposing `returncode`, an object exposing `exit_code`, or anything else — a
malformed result) or a raised `OSError` carrying a message.  The injected
`TimeSource` is modelled as a map from the index of the time-source call to
the `Int` timestamp it returns; the engine threads the call counter. -/

/-- The shapes a runner result can take for `_extract_exit_code`. -/
inductive RunnerResult where
  | int (n : Int)
  | withReturncode (n : Int)
  | withExitCode (n : Int)
  | malformed
deriving DecidableEq

/-- Outcome of invoking the runner: a result, or a raised `OSError`. -/
inductive RunnerOutcome where
  | ok (r : RunnerResult)
  | osError (msg : String)
deriving DecidableEq

/-- The injected capabilities of the engine. -/
structure EngineEnv where
  runner : List String → String → RunnerOutcome
  timeSource : Nat → Int

/-- `RUNNER_EXIT_CODE_ERROR`. -/
def RUNNER_EXIT_CODE_ERROR : String :=
  "Runner result must expose an exit code via returncode or exit_code."

/-- `_extract_exit_code`: `int` results and objects with `returncode` or
`exit_code` are accepted; anything else raises `TypeError`. -/
def _extract_exit_code : RunnerResult → Except String Int
  | .int n => .ok n
  | .withReturncode n => .ok n
  | .withExitCode n => .ok n
  | .malformed => .error RUNNER_EXIT_CODE_ERROR

/-- `_invoke_runner`: execute a command and capture `OSError` failures as a
synthetic `CompletedProcess` with exit code 127 plus the failure message. -/
def _invoke_runner (runner : List String → String → RunnerOutcome)
    (command : List String) (cwd : String) : RunnerResult × Option String :=
  match runner command cwd with
  | .ok r => (r, none)
  | .osError msg => (.withReturncode 127, some msg)

/-- The `'`-quoted fragment used in several engine notes. -/
def quoted (s : String) : String := "\x27" ++ s ++ "\x27"

/-- `_run_plan_step`: execute a single analyzer step; returns the telemetry
event, the step's notes, and the advanced time-source counter, or the
`TypeError` message for a malformed runner result. -/
def _run_plan_step (env : EngineEnv) (root : String) (plan : AnalyzerPlan)
    (step : AnalyzerCommand) (clock : Nat) :
    Except String (TelemetryEvent × List String × Nat) :=
  let started_at := env.timeSource clock
  let invoked := _invoke_runner env.runner step.command root
  let result := invoked.1
  let error_message := invoked.2
  let completed_at := env.timeSource (clock + 1)
  let duration := max (completed_at - started_at) 0
  match _extract_exit_code result with
  | .error e => .error e
  | .ok exit_code =>
      let event_metadata :=
        [("description", step.description)] ++
          (match step.severity with | some s => [("severity", s)] | none => []) ++
          (match error_message with | some m => [("error", m)] | none => [])
      let event : TelemetryEvent :=
        { tool := plan.tool, command := step.command, exit_code := exit_code,
          duration_seconds := duration, timestamp := completed_at,
          metadata := some (pyDict event_metadata) }
      let command_text := joinSep " " step.command
      let notes :=
        (match error_message with
         | some m =>
             ["Failed to launch " ++ plan.tool ++ " command " ++ quoted command_text ++
               ": " ++ m ++ "."]
         | none => []) ++
          (if exit_code ≠ 0 then
            [plan.tool ++ " command " ++ quoted command_text ++ " encountered exit code " ++
              printInt exit_code ++ "."]
           else [])
      .ok (event, notes, clock + 2)

/-- `_severity_execution_decision`: `(skip_step, note)`.  An inactive filter
(`None` or the empty tuple — both falsy in Python) means nothing is skipped
and no note is emitted. -/
def _severity_execution_decision (step : AnalyzerCommand)
    (severity_filter : Option (List String)) (tool : String) :
    Bool × Option String :=
  match severity_filter with
  | none => (false, none)
  | some [] => (false, none)
  | some fs =>
      match step.severity with
      | none =>
          (false, some (tool ++ " step " ++ quoted step.description ++
            " lacks severity metadata; executed."))
      | some severity =>
          if lowerStr severity ∈ fs then (false, none)
          else
            (true, some ("Skipped " ++ tool ++ " step " ++ quoted step.description ++
              " due to severity filter."))

/-- `_prepare_plan_steps`: executable steps for a plan plus explanatory
notes. -/
def _prepare_plan_steps (plan : AnalyzerPlan) (include_unready : Bool)
    (severity_filter : Option (List String)) :
    List AnalyzerCommand × List String :=
  let readiness_notes : List String :=
    if plan.ready then []
    else if include_unready then ["Forced execution for " ++ plan.tool ++ ": " ++ plan.reason]
    else ["Skipped " ++ plan.tool ++ ": " ++ plan.reason]
  if !plan.ready && !include_unready then ([], readiness_notes)
  else if plan.steps.isEmpty then
    ([], readiness_notes ++ ["No steps defined for " ++ plan.tool ++ "."])
  else
    let decisions := plan.steps.map fun step =>
      (step, _severity_execution_decision step severity_filter plan.tool)
    let severity_notes := decisions.filterMap fun sd => sd.2.2
    let executable := decisions.filterMap fun sd => if sd.2.1 then none else some sd.1
    if executable.isEmpty then
      (executable, readiness_notes ++ severity_notes ++
        ["All steps skipped for " ++ plan.tool ++ " after applying filters."])
    else (executable, readiness_notes ++ severity_notes)

/-- The inner loop of `execute_analysis_plan` over one plan's surviving
steps, threading the accumulated events, notes and time counter. -/
def runPlanSteps (env : EngineEnv) (root : String) (plan : AnalyzerPlan) :
    List AnalyzerCommand → Nat → List TelemetryEvent → List String →
    Except String (List TelemetryEvent × List String × Nat)
  | [], clock, events, notes => .ok (events, notes, clock)
  | step :: rest, clock, events, notes =>
      match _run_plan_step env root plan step clock with
      | .error e => .error e
      | .ok (event, step_notes, clock') =>
          runPlanSteps env root plan rest clock' (events ++ [event]) (notes ++ step_notes)

/-- The outer loop of `execute_analysis_plan` over the plans. -/
def runPlans (env : EngineEnv) (root : String) (include_unready : Bool)
    (filt : Option (List String)) :
    List AnalyzerPlan → Nat → List TelemetryEvent → List String →
    Except String (List TelemetryEvent × List String × Nat)
  | [], clock, events, notes => .ok (events, notes, clock)
  | plan :: rest, clock, events, notes =>
      let prepared := _prepare_plan_steps plan include_unready filt
      match runPlanSteps env root plan prepared.1 clock events (notes ++ prepared.2) with
      | .error e => .error e
      | .ok (events', notes', clock') =>
          runPlans env root include_unready filt rest clock' events' notes'

/-- The engine's lower-casing normalisation of the severity filter. -/
def normalizeFilter (severity_filter : Option (List String)) : Option (List String) :=
  severity_filter.map (fun fs => fs.map lowerStr)

/-- `execute_analysis_plan`: plan execution, telemetry capture.  The
returned `Except` models that the only raising failure mode is a malformed
runner result (`TypeError`); persistence to an optional store is composed
separately via `JSONLTelemetryStore.persist`/`InMemoryTelemetryStore`. -/
def execute_analysis_plan (report : AnalysisReport) (plans : List AnalyzerPlan)
    (metadata : List (String × String)) (include_unready : Bool)
    (severity_filter : Option (List String)) (env : EngineEnv) :
    Except String TelemetryRun :=
  let root := resolveRoot report.project_root
  let fingerprint := fingerprint_analysis report plans metadata
  let started_at := env.timeSource 0
  let normalised_filter := normalizeFilter severity_filter
  match runPlans env root include_unready normalised_filter plans 1 [] [] with
  | .error e => .error e
  | .ok (events, notes, _) =>
      let completed_at :=
        match events.getLast? with
        | some e => e.timestamp
        | none => started_at
      .ok { fingerprint := fingerprint, project_root := root, started_at := started_at,
            completed_at := completed_at, events := events, notes := notes }

end Emperator

namespace Emperator

/-! ### Closed-form characterization of the engine loops -/

/-- A runner result from which an exit code can be extracted. -/
def resultWellFormed : RunnerResult → Bool
  | .malformed => false
  | _ => true

/-- The exit code of a well-formed runner result. -/
def forcedExitCode : RunnerResult → Int
  | .int n => n
  | .withReturncode n => n
  | .withExitCode n => n
  | .malformed => 0

theorem extract_eq_of_wellFormed (r : RunnerResult) (h : resultWellFormed r = true) :
    _extract_exit_code r = .ok (forcedExitCode r) := by
  cases r <;> first | rfl | simp [resultWellFormed] at h

/-- The telemetry event `_run_plan_step` builds for a step whose runner
result is well-formed, as a function of the time counter. -/
def stepEvent (env : EngineEnv) (root : String) (clock : Nat) (plan : AnalyzerPlan)
    (step : AnalyzerCommand) : TelemetryEvent :=
  let invoked := _invoke_runner env.runner step.command root
  let completed_at := env.timeSource (clock + 1)
  { tool := plan.tool, command := step.command,
    exit_code := forcedExitCode invoked.1,
    duration_seconds := max (completed_at - env.timeSource clock) 0,
    timestamp := completed_at,
    metadata := some (pyDict
      ([("description", step.description)] ++
        (match step.severity with | some s => [("severity", s)] | none => []) ++
        (match invoked.2 with | some m => [("error", m)] | none => []))) }

/-- The notes `_run_plan_step` emits for a step whose runner result is
well-formed (independent of the time counter). -/
def stepNotes (env : EngineEnv) (root : String) (plan : AnalyzerPlan)
    (step : AnalyzerCommand) : List String :=
  let invoked := _invoke_runner env.runner step.command root
  let command_text := joinSep " " step.command
  (match invoked.2 with
   | some m =>
       ["Failed to launch " ++ plan.tool ++ " command " ++ quoted command_text ++
         ": " ++ m ++ "."]
   | none => []) ++
    (if forcedExitCode invoked.1 ≠ 0 then
      [plan.tool ++ " command " ++ quoted command_text ++ " encountered exit code " ++
        printInt (forcedExitCode invoked.1) ++ "."]
     else [])

theorem run_plan_step_eq (env : EngineEnv) (root : String) (plan : AnalyzerPlan)
    (step : AnalyzerCommand) (clock : Nat)
    (h : resultWellFormed (_invoke_runner env.runner step.command root).1 = true) :
    _run_plan_step env root plan step clock =
      .ok (stepEvent env root clock plan step, stepNotes env root plan step, clock + 2) := by
  unfold _run_plan_step stepEvent stepNotes
  simp only [extract_eq_of_wellFormed _ h]

/-- The event stream of a list of surviving `(plan, step)` pairs starting at
a given time counter: each step consumes two time-source calls. -/
def eventsSpec (env : EngineEnv) (root : String) :
    Nat → List (AnalyzerPlan × AnalyzerCommand) → List TelemetryEvent
  | _, [] => []
  | clock, ps :: rest =>
      stepEvent env root clock ps.1 ps.2 :: eventsSpec env root (clock + 2) rest

theorem eventsSpec_length (env : EngineEnv) (root : String) :
    ∀ (pss : List (AnalyzerPlan × AnalyzerCommand)) (clock : Nat),
      (eventsSpec env root clock pss).length = pss.length := by
  intro pss
  induction pss with
  | nil => intro clock; rfl
  | cons ps rest ih => intro clock; simp [eventsSpec, ih]

theorem eventsSpec_append (env : EngineEnv) (root : String) :
    ∀ (l₁ l₂ : List (AnalyzerPlan × AnalyzerCommand)) (clock : Nat),
      eventsSpec env root clock (l₁ ++ l₂) =
        eventsSpec env root clock l₁ ++ eventsSpec env root (clock + 2 * l₁.length) l₂ := by
  intro l₁
  induction l₁ with
  | nil => intro l₂ clock; simp [eventsSpec]
  | cons ps rest ih =>
      intro l₂ clock
      simp only [List.cons_append, eventsSpec, List.length_cons, List.append_eq]
      rw [ih l₂ (clock + 2)]
      have harith : clock + 2 + 2 * rest.length = clock + 2 * (rest.length + 1) := by ring
      rw [harith]

theorem eventsSpec_get (env : EngineEnv) (root : String) :
    ∀ (pss : List (AnalyzerPlan × AnalyzerCommand)) (clock : Nat) (k : Nat)
      (hk : k < pss.length),
      (eventsSpec env root clock pss).get ⟨k, by rw [eventsSpec_length]; exact hk⟩ =
        stepEvent env root (clock + 2 * k) (pss.get ⟨k, hk⟩).1 (pss.get ⟨k, hk⟩).2 := by
  intro pss
  induction pss with
  | nil => intro clock k hk; exact absurd hk (by simp)
  | cons ps rest ih =>
      intro clock k hk
      cases k with
      | zero => simp [eventsSpec]
      | succ k =>
          have hk' : k < rest.length := by simpa using hk
          have := ih (clock + 2) k hk'
          simp only [eventsSpec, List.get_cons_succ]
          rw [this]
          congr 1
          omega

theorem runPlanSteps_char (env : EngineEnv) (root : String) (plan : AnalyzerPlan) :
    ∀ (steps : List AnalyzerCommand),
      (∀ s ∈ steps, resultWellFormed (_invoke_runner env.runner s.command root).1 = true) →
      ∀ (clock : Nat) (events : List TelemetryEvent) (notes : List String),
        runPlanSteps env root plan steps clock events notes =
          .ok (events ++ eventsSpec env root clock (steps.map fun s => (plan, s)),
               notes ++ steps.flatMap (stepNotes env root plan),
               clock + 2 * steps.length) := by
  intro steps
  induction steps with
  | nil => intro _ clock events notes; simp [runPlanSteps, eventsSpec]
  | cons s rest ih =>
      intro hwf clock events notes
      have hs := hwf s (List.mem_cons_self s rest)
      have hrest : ∀ t ∈ rest, resultWellFormed (_invoke_runner env.runner t.command root).1 = true :=
        fun t ht => hwf t (List.mem_cons_of_mem s ht)
      simp only [runPlanSteps, run_plan_step_eq env root plan s clock hs]
      rw [ih hrest (clock + 2) (events ++ [stepEvent env root clock plan s])
        (notes ++ stepNotes env root plan s)]
      have harith : clock + 2 + 2 * rest.length = clock + 2 * (rest.length + 1) := by ring
      rw [harith]
      simp [eventsSpec, List.append_assoc]

/-- All surviving `(plan, step)` pairs of a plan collection, in execution
order. -/
def survivingSteps (include_unready : Bool) (filt : Option (List String))
    (plans : List AnalyzerPlan) : List (AnalyzerPlan × AnalyzerCommand) :=
  plans.flatMap fun p => ((_prepare_plan_steps p include_unready filt).1).map fun s => (p, s)

/-- The notes of a full run, in order: per plan, the preparation notes then
the per-step notes. -/
def notesSpec (env : EngineEnv) (root : String) (include_unready : Bool)
    (filt : Option (List String)) (plans : List AnalyzerPlan) : List String :=
  plans.flatMap fun p =>
    (_prepare_plan_steps p include_unready filt).2 ++
      ((_prepare_plan_steps p include_unready filt).1).flatMap (stepNotes env root p)

theorem runPlans_char (env : EngineEnv) (root : String) (include_unready : Bool)
    (filt : Option (List String)) :
    ∀ (plans : List AnalyzerPlan),
      (∀ ps ∈ survivingSteps include_unready filt plans,
        resultWellFormed (_invoke_runner env.runner ps.2.command root).1 = true) →
      ∀ (clock : Nat) (events : List TelemetryEvent) (notes : List String),
        runPlans env root include_unready filt plans clock events notes =
          .ok (events ++ eventsSpec env root clock (survivingSteps include_unready filt plans),
               notes ++ notesSpec env root include_unready filt plans,
               clock + 2 * (survivingSteps include_unready filt plans).length) := by
  intro plans
  induction plans with
  | nil => intro _ clock events notes; simp [runPlans, survivingSteps, notesSpec, eventsSpec]
  | cons p rest ih =>
      intro hwf clock events notes
      have hsurv : survivingSteps include_unready filt (p :: rest) =
          ((_prepare_plan_steps p include_unready filt).1.map fun s => (p, s)) ++
            survivingSteps include_unready filt rest := by
        simp [survivingSteps]
      have hp : ∀ s ∈ (_prepare_plan_steps p include_unready filt).1,
          resultWellFormed (_invoke_runner env.runner s.command root).1 = true := by
        intro s hs
        apply hwf (p, s)
        rw [hsurv]
        exact List.mem_append_left _ (List.mem_map_of_mem _ hs)
      have hrest : ∀ ps ∈ survivingSteps include_unready filt rest,
          resultWellFormed (_invoke_runner env.runner ps.2.command root).1 = true := by
        intro ps hps
        apply hwf ps
        rw [hsurv]
        exact List.mem_append_right _ hps
      simp only [runPlans]
      rw [runPlanSteps_char env root p (_prepare_plan_steps p include_unready filt).1 hp
        clock events (notes ++ (_prepare_plan_steps p include_unready filt).2)]
      change runPlans env root include_unready filt rest _ _ _ = _
      rw [ih hrest]
      rw [hsurv, eventsSpec_append]
      simp only [Except.ok.injEq, Prod.mk.injEq]
      refine ⟨?_, ?_, ?_⟩
      · simp [List.append_assoc]
      · simp [notesSpec, List.append_assoc]
      · simp only [List.length_append, List.length_map]
        omega

end Emperator

namespace Emperator

theorem error_mem_event_metadata (d m : String) (sev : Option String) :
    ("error", m) ∈ pyDict ([("description", d)] ++
      (match sev with | some s => [("severity", s)] | none => []) ++ [("error", m)]) := by
  cases sev with
  | none =>
      show ("error", m) ∈ pyDict [("description", d), ("error", m)]
      rw [show pyDict [("description", d), ("error", m)] =
        [("description", d), ("error", m)] from rfl]
      simp
  | some s =>
      show ("error", m) ∈ pyDict [("description", d), ("severity", s), ("error", m)]
      rw [show pyDict [("description", d), ("severity", s), ("error", m)] =
        [("description", d), ("error", m), ("severity", s)] from rfl]
      simp

/-- C2: a launch-level `OSError` from the runner is recorded as a synthetic
event with exit code 127 and the failure message under metadata key
`error`, and the run is still returned with every surviving step of every
plan producing its event (nothing is aborted). -/
theorem C2_launch_failure_synthetic_event :
    ∀ (report : AnalysisReport) (plans : List AnalyzerPlan)
      (metadata : List (String × String)) (include_unready : Bool)
      (severity_filter : Option (List String)) (env : EngineEnv),
      (∀ ps ∈ survivingSteps include_unready (normalizeFilter severity_filter) plans,
          resultWellFormed
            (_invoke_runner env.runner ps.2.command (resolveRoot report.project_root)).1 = true) →
      ∃ run,
        execute_analysis_plan report plans metadata include_unready severity_filter env =
            Except.ok run ∧
        run.events.length =
          (survivingSteps include_unready (normalizeFilter severity_filter) plans).length ∧
        ∀ (k : Nat)
          (hk : k <
            (survivingSteps include_unready (normalizeFilter severity_filter) plans).length)
          (msg : String),
          env.runner ((survivingSteps include_unready (normalizeFilter severity_filter)
              plans).get ⟨k, hk⟩).2.command (resolveRoot report.project_root) =
            RunnerOutcome.osError msg →
          ∃ hk' : k < run.events.length,
            (run.events.get ⟨k, hk'⟩).exit_code = 127 ∧
            ∃ mm, (run.events.get ⟨k, hk'⟩).metadata = some mm ∧ ("error", msg) ∈ mm := by
  intro report plans metadata include_unready severity_filter env hwf
  unfold execute_analysis_plan
  dsimp only
  rw [runPlans_char env (resolveRoot report.project_root) include_unready
    (normalizeFilter severity_filter) plans hwf 1 [] []]
  refine ⟨_, rfl, ?_, ?_⟩
  · simp [eventsSpec_length]
  · intro k hk msg hrun
    have hk' : k < (([] : List TelemetryEvent) ++ eventsSpec env (resolveRoot report.project_root)
        1 (survivingSteps include_unready (normalizeFilter severity_filter) plans)).length := by
      simp [eventsSpec_length]
      exact hk
    refine ⟨hk', ?_, ?_⟩
    · have hget := eventsSpec_get env (resolveRoot report.project_root)
        (survivingSteps include_unready (normalizeFilter severity_filter) plans) 1 k hk
      have hnil : (([] : List TelemetryEvent) ++ eventsSpec env (resolveRoot report.project_root)
          1 (survivingSteps include_unready (normalizeFilter severity_filter) plans)) =
          eventsSpec env (resolveRoot report.project_root) 1
            (survivingSteps include_unready (normalizeFilter severity_filter) plans) := by
        simp
      rw [List.get_of_eq hnil, hget]
      have hinv : _invoke_runner env.runner
          ((survivingSteps include_unready (normalizeFilter severity_filter) plans).get
            ⟨k, hk⟩).2.command (resolveRoot report.project_root) =
          (.withReturncode 127, some msg) := by
        unfold _invoke_runner
        rw [hrun]
      show forcedExitCode (_invoke_runner env.runner
          ((survivingSteps include_unready (normalizeFilter severity_filter) plans).get
            ⟨k, hk⟩).2.command (resolveRoot report.project_root)).1 = 127
      rw [hinv]
      rfl
    · have hget := eventsSpec_get env (resolveRoot report.project_root)
        (survivingSteps include_unready (normalizeFilter severity_filter) plans) 1 k hk
      have hnil : (([] : List TelemetryEvent) ++ eventsSpec env (resolveRoot report.project_root)
          1 (survivingSteps include_unready (normalizeFilter severity_filter) plans)) =
          eventsSpec env (resolveRoot report.project_root) 1
            (survivingSteps include_unready (normalizeFilter severity_filter) plans) := by
        simp
      rw [List.get_of_eq hnil, hget]
      refine ⟨_, rfl, ?_⟩
      show ("error", msg) ∈ pyDict _
      have hinv : _invoke_runner env.runner
          ((survivingSteps include_unready (normalizeFilter severity_filter) plans).get
            ⟨k, hk⟩).2.command (resolveRoot report.project_root) =
          (.withReturncode 127, some msg) := by
        unfold _invoke_runner
        rw [hrun]
      rw [hinv]
      exact error_mem_event_metadata _ msg _

/-- Witness environment for C2: every launch raises `OSError`. -/
def c2Env : EngineEnv := ⟨fun _ _ => .osError "boom", fun _ => 0⟩

/-- Witness plan for C2. -/
def c2Plan : AnalyzerPlan := ⟨"Semgrep", true, "ready", [⟨["semgrep", "scan"], "scan", none⟩]⟩

/-- Witness report for C2. -/
def c2Report : AnalysisReport := ⟨[], [], [], some "/r"⟩

/-- Witness for C2 at a concrete report, plan, and always-failing runner. -/
theorem C2_launch_failure_synthetic_event_witness :
    ∃ run,
      execute_analysis_plan c2Report [c2Plan] [] false none c2Env = Except.ok run ∧
      run.events.length = (survivingSteps false (normalizeFilter none) [c2Plan]).length ∧
      ∀ (k : Nat) (hk : k < (survivingSteps false (normalizeFilter none) [c2Plan]).length)
        (msg : String),
        c2Env.runner ((survivingSteps false (normalizeFilter none) [c2Plan]).get
            ⟨k, hk⟩).2.command (resolveRoot c2Report.project_root) =
          RunnerOutcome.osError msg →
        ∃ hk' : k < run.events.length,
          (run.events.get ⟨k, hk'⟩).exit_code = 127 ∧
          ∃ mm, (run.events.get ⟨k, hk'⟩).metadata = some mm ∧ ("error", msg) ∈ mm :=
  C2_launch_failure_synthetic_event c2Report [c2Plan] [] false none c2Env (by decide)

end Emperator

namespace Emperator

theorem filterMap_if_eq_filter {α : Type} (dec : α → Bool) :
    ∀ l : List α,
      ((l.map fun s => (s, dec s)).filterMap fun sd => if sd.2 then none else some sd.1) =
        l.filter (fun s => !(dec s)) := by
  intro l
  induction l with
  | nil => rfl
  | cons s rest ih =>
      by_cases h : dec s
      · simp [List.filterMap_cons, List.filter_cons, h, ih]
      · simp [List.filterMap_cons, List.filter_cons, h, ih]

/-- C3: the unready skip law.  (i) A plan with `ready=false` under
`include_unready=false` prepares zero steps and exactly the skip note;
(ii) at any point of any run, such a plan contributes zero events and
exactly the skip note to the loop state; (iii) under `include_unready=true`
(no severity filter) it prepares all its steps behind the forced-execution
note; (iv) executing it alone yields one event per step with the
forced-execution note first. -/
theorem C3_unready_skip_law :
    (∀ (p : AnalyzerPlan) (filt : Option (List String)), p.ready = false →
      _prepare_plan_steps p false filt =
        ([], ["Skipped " ++ p.tool ++ ": " ++ p.reason])) ∧
    (∀ (env : EngineEnv) (root : String) (filt : Option (List String))
       (p : AnalyzerPlan) (rest : List AnalyzerPlan) (clock : Nat)
       (events : List TelemetryEvent) (notes : List String), p.ready = false →
      runPlans env root false filt (p :: rest) clock events notes =
        runPlans env root false filt rest clock events
          (notes ++ ["Skipped " ++ p.tool ++ ": " ++ p.reason])) ∧
    (∀ p : AnalyzerPlan, p.ready = false →
      _prepare_plan_steps p true none =
        (p.steps, ("Forced execution for " ++ p.tool ++ ": " ++ p.reason) ::
          (if p.steps.isEmpty then ["No steps defined for " ++ p.tool ++ "."] else []))) ∧
    (∀ (report : AnalysisReport) (metadata : List (String × String))
       (p : AnalyzerPlan) (env : EngineEnv), p.ready = false →
      (∀ s ∈ p.steps,
        resultWellFormed
          (_invoke_runner env.runner s.command (resolveRoot report.project_root)).1 = true) →
      ∃ run, execute_analysis_plan report [p] metadata true none env = Except.ok run ∧
        run.events.length = p.steps.length ∧
        run.notes.head? = some ("Forced execution for " ++ p.tool ++ ": " ++ p.reason)) := by
  have hprep_skip : ∀ (p : AnalyzerPlan) (filt : Option (List String)), p.ready = false →
      _prepare_plan_steps p false filt =
        ([], ["Skipped " ++ p.tool ++ ": " ++ p.reason]) := by
    intro p filt h
    unfold _prepare_plan_steps
    rw [h]
    rfl
  have hfm : ∀ l : List AnalyzerCommand,
      List.filterMap (fun sd => if sd.2.1 = true then none else some sd.1)
        (l.map fun step => (step, ((false : Bool), (none : Option String)))) = l := by
    intro l
    induction l with
    | nil => rfl
    | cons a t ih => simp [List.filterMap_cons, ih]
  have hnotes : ∀ l : List AnalyzerCommand,
      List.filterMap (fun sd => sd.2.2)
        (l.map fun step => (step, ((false : Bool), (none : Option String)))) = [] := by
    intro l
    induction l with
    | nil => rfl
    | cons a t ih => simp [List.filterMap_cons, ih]
  have hprep_forced : ∀ p : AnalyzerPlan, p.ready = false →
      _prepare_plan_steps p true none =
        (p.steps, ("Forced execution for " ++ p.tool ++ ": " ++ p.reason) ::
          (if p.steps.isEmpty then ["No steps defined for " ++ p.tool ++ "."] else [])) := by
    intro p h
    unfold _prepare_plan_steps
    rw [h]
    by_cases hempty : p.steps.isEmpty
    · have : p.steps = [] := List.isEmpty_iff.mp hempty
      simp [hempty, this]
    · have hdec : ∀ (s : AnalyzerCommand) (t : String),
          _severity_execution_decision s none t = ((false : Bool), (none : Option String)) :=
        fun s t => rfl
      simp only [hdec, hfm, hnotes]
      simp [hempty]
  refine ⟨hprep_skip, ?_, hprep_forced, ?_⟩
  · intro env root filt p rest clock events notes h
    have hstep : runPlans env root false filt (p :: rest) clock events notes =
        match runPlanSteps env root p (_prepare_plan_steps p false filt).1 clock events
          (notes ++ (_prepare_plan_steps p false filt).2) with
        | Except.error e => Except.error e
        | Except.ok (events', notes', clock') =>
            runPlans env root false filt rest clock' events' notes' := rfl
    rw [hstep, hprep_skip p filt h]
    rfl
  · intro report metadata p env h hwf
    have hsurv : survivingSteps true none [p] = p.steps.map fun s => (p, s) := by
      unfold survivingSteps
      rw [List.flatMap_cons, hprep_forced p h]
      simp [List.flatMap_nil]
    have hwf' : ∀ ps ∈ survivingSteps true (normalizeFilter none) [p],
        resultWellFormed
          (_invoke_runner env.runner ps.2.command (resolveRoot report.project_root)).1 = true := by
      intro ps hps
      have : normalizeFilter none = none := rfl
      rw [this, hsurv] at hps
      obtain ⟨s, hs, hps'⟩ := List.mem_map.mp hps
      rw [← hps']
      exact hwf s hs
    unfold execute_analysis_plan
    dsimp only
    rw [show normalizeFilter none = none from rfl]
    rw [runPlans_char env (resolveRoot report.project_root) true none [p]
      (by rw [show (none : Option (List String)) = normalizeFilter none from rfl]; exact hwf')
      1 [] []]
    refine ⟨_, rfl, ?_, ?_⟩
    · show (([] : List TelemetryEvent) ++ eventsSpec env (resolveRoot report.project_root) 1
        (survivingSteps true none [p])).length = p.steps.length
      rw [List.nil_append, eventsSpec_length, hsurv, List.length_map]
    · show (([] : List String) ++ notesSpec env (resolveRoot report.project_root)
        true none [p]).head? = _
      rw [List.nil_append]
      unfold notesSpec
      rw [List.flatMap_cons, hprep_forced p h]
      simp [List.flatMap_nil]

end Emperator

namespace Emperator

/-- Witness plan for C3 (unready). -/
def c3Plan : AnalyzerPlan := ⟨"CodeQL", false, "not installed", [⟨["codeql", "x"], "db", none⟩]⟩

/-- Witness environment for C3. -/
def c3Env : EngineEnv := ⟨fun _ _ => .ok (.int 0), fun _ => 5⟩

/-- Witness report for C3. -/
def c3Report : AnalysisReport := ⟨[], [], [], some "/r"⟩

/-- Witness for C3 at a concrete unready plan. -/
theorem C3_unready_skip_law_witness :
    (_prepare_plan_steps c3Plan false none =
      ([], ["Skipped " ++ c3Plan.tool ++ ": " ++ c3Plan.reason])) ∧
    (runPlans c3Env "/r" false none (c3Plan :: []) 1 [] [] =
      runPlans c3Env "/r" false none [] 1 []
        ([] ++ ["Skipped " ++ c3Plan.tool ++ ": " ++ c3Plan.reason])) ∧
    (_prepare_plan_steps c3Plan true none =
      (c3Plan.steps, ("Forced execution for " ++ c3Plan.tool ++ ": " ++ c3Plan.reason) ::
        (if c3Plan.steps.isEmpty then ["No steps defined for " ++ c3Plan.tool ++ "."]
         else []))) ∧
    (∃ run, execute_analysis_plan c3Report [c3Plan] [] true none c3Env = Except.ok run ∧
      run.events.length = c3Plan.steps.length ∧
      run.notes.head? =
        some ("Forced execution for " ++ c3Plan.tool ++ ": " ++ c3Plan.reason)) :=
  ⟨C3_unready_skip_law.1 c3Plan none (by decide),
   C3_unready_skip_law.2.1 c3Env "/r" none c3Plan [] 1 [] [] (by decide),
   C3_unready_skip_law.2.2.1 c3Plan (by decide),
   C3_unready_skip_law.2.2.2 c3Report [] c3Plan c3Env (by decide) (by decide)⟩

/-! ### C4: severity filter law -/

theorem filterMap_decisions_eq_filter {α : Type} (dec : α → Bool × Option String) :
    ∀ l : List α,
      ((l.map fun s => (s, dec s)).filterMap fun sd =>
        if sd.2.1 then none else some sd.1) = l.filter (fun s => !(dec s).1) := by
  intro l
  induction l with
  | nil => rfl
  | cons s rest ih =>
      by_cases h : (dec s).1
      · simp [List.filterMap_cons, List.filter_cons, h, ih]
      · simp [List.filterMap_cons, List.filter_cons, h, ih]

/-- C4: the severity filter law.  Under an active (non-empty, normalized)
filter: (i) a step whose lower-cased severity is absent from the filter is
marked skipped with the explanatory note; (ii) a step without severity is
not skipped and gets the lacks-metadata note; (iii) for an executing plan
the prepared (executed) steps are exactly the non-skipped ones — a skipped
step contributes zero events; (iv) when every step is skipped, the plan
prepares no steps and the last note is the all-steps-skipped note. -/
theorem C4_severity_filter_law :
    (∀ (tool : String) (step : AnalyzerCommand) (fs : List String) (sev : String),
      fs ≠ [] → step.severity = some sev → lowerStr sev ∉ fs →
      _severity_execution_decision step (some fs) tool =
        (true, some ("Skipped " ++ tool ++ " step " ++ quoted step.description ++
          " due to severity filter."))) ∧
    (∀ (tool : String) (step : AnalyzerCommand) (fs : List String),
      fs ≠ [] → step.severity = none →
      _severity_execution_decision step (some fs) tool =
        (false, some (tool ++ " step " ++ quoted step.description ++
          " lacks severity metadata; executed."))) ∧
    (∀ (p : AnalyzerPlan) (include_unready : Bool) (filt : Option (List String)),
      (p.ready = true ∨ include_unready = true) → p.steps ≠ [] →
      (_prepare_plan_steps p include_unready filt).1 =
        p.steps.filter (fun s => !(_severity_execution_decision s filt p.tool).1)) ∧
    (∀ (p : AnalyzerPlan) (include_unready : Bool) (filt : Option (List String)),
      (p.ready = true ∨ include_unready = true) → p.steps ≠ [] →
      (∀ s ∈ p.steps, (_severity_execution_decision s filt p.tool).1 = true) →
      (_prepare_plan_steps p include_unready filt).1 = [] ∧
      ((_prepare_plan_steps p include_unready filt).2).getLast? =
        some ("All steps skipped for " ++ p.tool ++ " after applying filters.")) := by
  have hpart1 : ∀ (tool : String) (step : AnalyzerCommand) (fs : List String) (sev : String),
      fs ≠ [] → step.severity = some sev → lowerStr sev ∉ fs →
      _severity_execution_decision step (some fs) tool =
        (true, some ("Skipped " ++ tool ++ " step " ++ quoted step.description ++
          " due to severity filter.")) := by
    intro tool step fs sev hfs hsev hnot
    cases fs with
    | nil => exact absurd rfl hfs
    | cons f fs' =>
        show (match step.severity with
          | none => ((false : Bool), some (tool ++ " step " ++ quoted step.description ++
              " lacks severity metadata; executed."))
          | some severity =>
              if lowerStr severity ∈ f :: fs' then ((false : Bool), (none : Option String))
              else (true, some ("Skipped " ++ tool ++ " step " ++ quoted step.description ++
                " due to severity filter."))) = _
        rw [hsev]
        simp only [if_neg hnot]
  have hpart2 : ∀ (tool : String) (step : AnalyzerCommand) (fs : List String),
      fs ≠ [] → step.severity = none →
      _severity_execution_decision step (some fs) tool =
        (false, some (tool ++ " step " ++ quoted step.description ++
          " lacks severity metadata; executed.")) := by
    intro tool step fs hfs hsev
    cases fs with
    | nil => exact absurd rfl hfs
    | cons f fs' =>
        show (match step.severity with
          | none => ((false : Bool), some (tool ++ " step " ++ quoted step.description ++
              " lacks severity metadata; executed."))
          | some severity =>
              if lowerStr severity ∈ f :: fs' then ((false : Bool), (none : Option String))
              else (true, some ("Skipped " ++ tool ++ " step " ++ quoted step.description ++
                " due to severity filter."))) = _
        rw [hsev]
  have hpart3 : ∀ (p : AnalyzerPlan) (include_unready : Bool) (filt : Option (List String)),
      (p.ready = true ∨ include_unready = true) → p.steps ≠ [] →
      (_prepare_plan_steps p include_unready filt).1 =
        p.steps.filter (fun s => !(_severity_execution_decision s filt p.tool).1) := by
    intro p incl filt hready hne
    unfold _prepare_plan_steps
    have h1 : (!p.ready && !incl) = false := by
      rcases hready with h | h <;> simp [h]
    have h2 : p.steps.isEmpty = false := by
      cases hs : p.steps with
      | nil => exact absurd hs hne
      | cons a t => rfl
    simp only [h1, h2, Bool.false_eq_true, if_false]
    rw [filterMap_decisions_eq_filter (fun s => _severity_execution_decision s filt p.tool)
      p.steps]
    split <;> rfl
  refine ⟨hpart1, hpart2, hpart3, ?_⟩
  · intro p incl filt hready hne hall
    have hfilter : p.steps.filter
        (fun s => !(_severity_execution_decision s filt p.tool).1) = [] := by
      rw [List.filter_eq_nil_iff]
      intro s hs
      rw [hall s hs]
      decide
    have hexec := hpart3 p incl filt hready hne
    constructor
    · rw [hexec, hfilter]
    · unfold _prepare_plan_steps
      have h1 : (!p.ready && !incl) = false := by
        rcases hready with h | h <;> simp [h]
      have h2 : p.steps.isEmpty = false := by
        cases hs : p.steps with
        | nil => exact absurd hs hne
        | cons a t => rfl
      simp only [h1, h2, Bool.false_eq_true, if_false]
      rw [filterMap_decisions_eq_filter (fun s => _severity_execution_decision s filt p.tool)
        p.steps, hfilter]
      simp only [List.isEmpty_nil, if_true]
      rw [List.getLast?_concat]

end Emperator

namespace Emperator

/-- Witness step with severity `Low` for C4. -/
def c4StepLow : AnalyzerCommand := ⟨["run"], "low step", some "Low"⟩

/-- Witness step without severity for C4. -/
def c4StepNone : AnalyzerCommand := ⟨["run2"], "plain step", none⟩

/-- Witness plan with both steps for C4. -/
def c4Plan : AnalyzerPlan := ⟨"T", true, "ok", [c4StepLow, c4StepNone]⟩

/-- Witness plan whose only step is filtered out, for C4. -/
def c4PlanAll : AnalyzerPlan := ⟨"T", true, "ok", [c4StepLow]⟩

/-- Witness for C4 under the filter `{"high"}`. -/
theorem C4_severity_filter_law_witness :
    (_severity_execution_decision c4StepLow (some ["high"]) "T" =
      (true, some ("Skipped " ++ "T" ++ " step " ++ quoted c4StepLow.description ++
        " due to severity filter."))) ∧
    (_severity_execution_decision c4StepNone (some ["high"]) "T" =
      (false, some ("T" ++ " step " ++ quoted c4StepNone.description ++
        " lacks severity metadata; executed."))) ∧
    ((_prepare_plan_steps c4Plan false (some ["high"])).1 =
      c4Plan.steps.filter
        (fun s => !(_severity_execution_decision s (some ["high"]) c4Plan.tool).1)) ∧
    ((_prepare_plan_steps c4PlanAll false (some ["high"])).1 = [] ∧
      ((_prepare_plan_steps c4PlanAll false (some ["high"])).2).getLast? =
        some ("All steps skipped for " ++ c4PlanAll.tool ++ " after applying filters.")) :=
  ⟨C4_severity_filter_law.1 "T" c4StepLow ["high"] "Low" (by decide) (by decide) (by decide),
   C4_severity_filter_law.2.1 "T" c4StepNone ["high"] (by decide) (by decide),
   C4_severity_filter_law.2.2.1 c4Plan false (some ["high"]) (Or.inl (by decide)) (by decide),
   C4_severity_filter_law.2.2.2 c4PlanAll false (some ["high"]) (Or.inl (by decide)) (by decide)
     (by decide)⟩

/-! ### C10: an empty severity filter is inactive -/

/-- C10: a non-`None` but empty severity filter behaves exactly like no
filter: the per-step decision never skips and never notes, and the whole
engine result coincides with the unfiltered run. -/
theorem C10_empty_severity_filter_inactive :
    (∀ (step : AnalyzerCommand) (tool : String),
      _severity_execution_decision step (some []) tool =
        ((false : Bool), (none : Option String))) ∧
    (∀ (report : AnalysisReport) (plans : List AnalyzerPlan)
       (metadata : List (String × String)) (include_unready : Bool) (env : EngineEnv),
      execute_analysis_plan report plans metadata include_unready (some []) env =
        execute_analysis_plan report plans metadata include_unready none env) := by
  have hdec2 : ∀ (step : AnalyzerCommand) (tool : String),
      _severity_execution_decision step (some []) tool =
        _severity_execution_decision step none tool :=
    fun step tool => rfl
  have hprep : ∀ (p : AnalyzerPlan) (incl : Bool),
      _prepare_plan_steps p incl (some []) = _prepare_plan_steps p incl none := by
    intro p incl
    unfold _prepare_plan_steps
    simp only [hdec2]
  have hrun : ∀ (env : EngineEnv) (root : String) (incl : Bool) (plans : List AnalyzerPlan)
      (clock : Nat) (events : List TelemetryEvent) (notes : List String),
      runPlans env root incl (some []) plans clock events notes =
        runPlans env root incl none plans clock events notes := by
    intro env root incl plans
    induction plans with
    | nil => intro clock events notes; rfl
    | cons p rest ih =>
        intro clock events notes
        have hL : runPlans env root incl (some []) (p :: rest) clock events notes =
            match runPlanSteps env root p (_prepare_plan_steps p incl (some [])).1 clock events
              (notes ++ (_prepare_plan_steps p incl (some [])).2) with
            | Except.error e => Except.error e
            | Except.ok (events', notes', clock') =>
                runPlans env root incl (some []) rest clock' events' notes' := rfl
        have hR : runPlans env root incl none (p :: rest) clock events notes =
            match runPlanSteps env root p (_prepare_plan_steps p incl none).1 clock events
              (notes ++ (_prepare_plan_steps p incl none).2) with
            | Except.error e => Except.error e
            | Except.ok (events', notes', clock') =>
                runPlans env root incl none rest clock' events' notes' := rfl
        rw [hL, hR, hprep p incl]
        cases runPlanSteps env root p (_prepare_plan_steps p incl none).1 clock events
            (notes ++ (_prepare_plan_steps p incl none).2) with
        | error e => rfl
        | ok triple =>
            obtain ⟨events', notes', clock'⟩ := triple
            exact ih clock' events' notes'
  refine ⟨fun step tool => rfl, ?_⟩
  intro report plans metadata include_unready env
  unfold execute_analysis_plan
  dsimp only
  rw [show normalizeFilter (some []) = (some [] : Option (List String)) from rfl,
      show normalizeFilter none = (none : Option (List String)) from rfl,
      hrun env (resolveRoot report.project_root) include_unready plans 1 [] []]

end Emperator

namespace Emperator

/-! ### Telemetry payload serialization (`to_payload` / `from_payload`)

A `.jsonl` line is modelled by the outcome of `json.loads` on it: `none`
for a line that is not valid JSON (or a blank line), `some j` for a line
parsing to the value `j`.  JSON objects parsed from a file have unique keys
(they come from Python dicts), so a first-match lookup is faithful.
`_read_runs` catches `json.JSONDecodeError` around the parse and
`KeyError`/`TypeError`/`ValueError` around the rehydration - and nothing
else, so an `AttributeError` raised by calling `.get` on a payload that is
not a mapping propagates out of the store; `PyResult` keeps the three
outcomes apart. -/

/-- Python truthiness of a JSON-shaped value. -/
def jsonFalsy : Json → Bool
  | Json.null => true
  | Json.bool b => !b
  | Json.num n => n == 0
  | Json.str s => s.data.isEmpty
  | Json.arr l => l.isEmpty
  | Json.obj l => l.isEmpty

/-- Dictionary lookup on an object's field list. -/
def Json.lookup : List (String × Json) → String → Option Json
  | [], _ => none
  | (k, v) :: rest, key => if k == key then some v else Json.lookup rest key

/-- Python iteration over a JSON-shaped value (`tuple(... for part in x)`):
lists yield their items, strings their characters, dicts their keys;
anything else raises `TypeError`. -/
def pyIter : Json → Option (List Json)
  | Json.arr l => some l
  | Json.str s => some (s.data.map fun c => Json.str (String.mk [c]))
  | Json.obj ms => some (ms.map fun kv => Json.str kv.1)
  | _ => none

/-- Python `int(x)` (and, under the integral time model, `float(x)`):
numerals and booleans convert, numeric strings parse, anything else raises. -/
def pyInt : Json → Option Int
  | Json.num n => some n
  | Json.bool b => some (if b then 1 else 0)
  | Json.str s => parseIntStr s
  | _ => none

/-- Outcome of a rehydration step under `_read_runs`'s try/except blocks:
success, an exception of one of the caught classes
(`KeyError`/`TypeError`/`ValueError`), or an `AttributeError`, which the
`except` clauses do not name and which therefore propagates to the
caller. -/
inductive PyResult (α : Type) where
  | ok (a : α)
  | caught
  | uncaught
deriving DecidableEq

/-- Effectful map in `PyResult` (the `tuple(TelemetryEvent.from_payload(raw)
for raw in ...)` generator): elements are decoded left to right and the
first exception, of either class, aborts the whole tuple. -/
def pyResultMapList {α β : Type} (f : α → PyResult β) : List α → PyResult (List β)
  | [] => PyResult.ok []
  | a :: t =>
      match f a with
      | PyResult.ok b =>
          match pyResultMapList f t with
          | PyResult.ok bs => PyResult.ok (b :: bs)
          | PyResult.caught => PyResult.caught
          | PyResult.uncaught => PyResult.uncaught
      | PyResult.caught => PyResult.caught
      | PyResult.uncaught => PyResult.uncaught

/-- `TelemetryEvent.to_payload` (keys listed in the sorted order
`json.dump(..., sort_keys=True)` writes). -/
def TelemetryEvent.to_payload (e : TelemetryEvent) : Json :=
  Json.obj
    [("command", Json.arr (e.command.map Json.str)),
     ("duration_seconds", Json.num e.duration_seconds),
     ("exit_code", Json.num e.exit_code),
     ("metadata", Json.obj
       ((e.metadata.getD []).map fun kv => (kv.1, Json.str kv.2))),
     ("timestamp", Json.str (printInt e.timestamp)),
     ("tool", Json.str e.tool)]

/-- `TelemetryRun.to_payload`. -/
def TelemetryRun.to_payload (r : TelemetryRun) : Json :=
  Json.obj
    [("completed_at", Json.str (printInt r.completed_at)),
     ("events", Json.arr (r.events.map TelemetryEvent.to_payload)),
     ("fingerprint", Json.str r.fingerprint),
     ("notes", Json.arr (r.notes.map Json.str)),
     ("project_root", Json.str r.project_root),
     ("started_at", Json.str (printInt r.started_at))]

/-- `metadata = payload.get("metadata") or None` followed by the
normalisation comprehension: a missing or falsy value (including the empty
dict) becomes `None`; a non-empty dict is rebuilt with `str` keys/values;
a truthy non-mapping raises. -/
def decodeMetadata (fields : List (String × Json)) :
    Option (Option (List (String × String))) :=
  match Json.lookup fields "metadata" with
  | none => some none
  | some j =>
      if jsonFalsy j then some none
      else
        match j with
        | Json.obj ms => some (some (pyDict (ms.map fun kv => (kv.1, pyStr kv.2))))
        | _ => none

/-- `tuple(str(part) for part in payload.get("command", ()))`. -/
def decodeCommand (fields : List (String × Json)) : Option (List String) :=
  match Json.lookup fields "command" with
  | none => some []
  | some j => (pyIter j).map (List.map pyStr)

/-- `int(payload.get("exit_code", 0))`. -/
def decodeExitCode (fields : List (String × Json)) : Option Int :=
  match Json.lookup fields "exit_code" with
  | none => some 0
  | some j => pyInt j

/-- `float(payload.get("duration_seconds", 0.0))` under the integral time
model. -/
def decodeDuration (fields : List (String × Json)) : Option Int :=
  match Json.lookup fields "duration_seconds" with
  | none => some 0
  | some j => pyInt j

/-- `TelemetryEvent.from_payload`.  On a mapping payload every failure mode
(missing key, unconvertible value, truthy non-mapping metadata) raises a
`KeyError`/`TypeError`/`ValueError`, all caught by `_read_runs`'s second
`except`: `.caught`.  On a payload that is not a mapping the very first
operation, `payload.get('metadata')` (analysis/__init__.py line 142),
raises `AttributeError`, which is not among the caught classes and
propagates: `.uncaught`. -/
def TelemetryEvent.from_payload : Json → PyResult TelemetryEvent
  | Json.obj fields =>
      match Json.lookup fields "tool", Json.lookup fields "timestamp" with
      | some toolJ, some tsJ =>
          match parseIntStr (pyStr tsJ) with
          | none => PyResult.caught
          | some ts =>
              match decodeCommand fields, decodeExitCode fields, decodeDuration fields,
                    decodeMetadata fields with
              | some cmd, some ec, some dur, some mo =>
                  PyResult.ok { tool := pyStr toolJ, command := cmd, exit_code := ec,
                                duration_seconds := dur, timestamp := ts, metadata := mo }
              | _, _, _, _ => PyResult.caught
      | _, _ => PyResult.caught
  | _ => PyResult.uncaught

/-- `tuple(TelemetryEvent.from_payload(raw) for raw in payload.get("events",
()))`: a non-iterable value raises a caught `TypeError`; a dict yields its
keys and a string its characters when iterated, both of which are strings,
so a non-empty value of either shape reaches `TelemetryEvent.from_payload`
on a non-mapping and raises the uncaught `AttributeError`. -/
def decodeEvents (fields : List (String × Json)) : PyResult (List TelemetryEvent) :=
  match Json.lookup fields "events" with
  | none => PyResult.ok []
  | some j =>
      match pyIter j with
      | none => PyResult.caught
      | some items => pyResultMapList TelemetryEvent.from_payload items

/-- `tuple(str(note) for note in payload.get("notes", ()))`. -/
def decodeNotes (fields : List (String × Json)) : Option (List String) :=
  match Json.lookup fields "notes" with
  | none => some []
  | some j => (pyIter j).map (List.map pyStr)

/-- `TelemetryRun.from_payload`.  The `events` tuple is built before the
constructor arguments are evaluated, so an `AttributeError` from a
non-mapping event entry propagates even when other keys are missing; a
payload that is not a mapping raises `AttributeError` at
`payload.get('events', ())` (analysis/__init__.py line 192) before
anything else: `.uncaught`.  Every other failure is a caught
`KeyError`/`TypeError`/`ValueError`: `.caught`. -/
def TelemetryRun.from_payload : Json → PyResult TelemetryRun
  | Json.obj fields =>
      match decodeEvents fields with
      | PyResult.ok evs =>
          match Json.lookup fields "fingerprint", Json.lookup fields "project_root",
                Json.lookup fields "started_at", Json.lookup fields "completed_at" with
          | some fpJ, some prJ, some saJ, some caJ =>
              match parseIntStr (pyStr saJ), parseIntStr (pyStr caJ) with
              | some sa, some ca =>
                  match decodeNotes fields with
                  | some nts =>
                      PyResult.ok { fingerprint := pyStr fpJ, project_root := pyStr prJ,
                                    started_at := sa, completed_at := ca, events := evs,
                                    notes := nts }
                  | none => PyResult.caught
              | _, _ => PyResult.caught
          | _, _, _, _ => PyResult.caught
      | PyResult.caught => PyResult.caught
      | PyResult.uncaught => PyResult.uncaught
  | _ => PyResult.uncaught

/-! ### The telemetry stores -/

/-- `InMemoryTelemetryStore`: fingerprint-keyed append-only lists. -/
structure InMemoryTelemetryStore where
  _runs : String → List TelemetryRun

/-- `InMemoryTelemetryStore()`. -/
def InMemoryTelemetryStore.empty : InMemoryTelemetryStore := ⟨fun _ => []⟩

/-- `InMemoryTelemetryStore.persist`. -/
def InMemoryTelemetryStore.persist (store : InMemoryTelemetryStore)
    (run : TelemetryRun) : InMemoryTelemetryStore :=
  ⟨fun f => if f == run.fingerprint then store._runs f ++ [run] else store._runs f⟩

/-- `InMemoryTelemetryStore.history`. -/
def InMemoryTelemetryStore.history (store : InMemoryTelemetryStore)
    (fingerprint : String) : List TelemetryRun :=
  store._runs fingerprint

/-- `JSONLTelemetryStore`: one file per fingerprint; each file is the list
of its lines, each line the outcome of `json.loads` on it.  A nonexistent
file and an empty file are both the empty list.  The temp-file
rename-on-write is an atomicity property of the filesystem interaction and
is not modelled: `_write_runs` replaces the file content in one step, which
is exactly what the atomic rename guarantees a reader observes. -/
structure JSONLTelemetryStore where
  files : String → List (Option Json)
  max_history : Option Nat := none

/-- Python `history[-max_history:]` (note `[-0:]` is the whole list). -/
def takeLastPy {α : Type} (n : Nat) (xs : List α) : List α :=
  if n = 0 then xs else xs.drop (xs.length - n)

/-- The line loop of `_read_runs`: a line that fails `json.loads` (`none`)
is skipped by the first `except`, a line whose rehydration raises
`KeyError`/`TypeError`/`ValueError` by the second; an uncaught
`AttributeError` (a valid-JSON line that is not an object, such as `[1]`)
propagates immediately, discarding the runs read so far. -/
def readLines : List (Option Json) → PyResult (List TelemetryRun)
  | [] => PyResult.ok []
  | line :: rest =>
      match line with
      | none => readLines rest
      | some payload =>
          match TelemetryRun.from_payload payload with
          | PyResult.ok r =>
              match readLines rest with
              | PyResult.ok rs => PyResult.ok (r :: rs)
              | PyResult.caught => PyResult.caught
              | PyResult.uncaught => PyResult.uncaught
          | PyResult.caught => readLines rest
          | PyResult.uncaught => PyResult.uncaught

/-- `JSONLTelemetryStore._read_runs`. -/
def JSONLTelemetryStore._read_runs (store : JSONLTelemetryStore)
    (fingerprint : String) : PyResult (List TelemetryRun) :=
  readLines (store.files fingerprint)

/-- `JSONLTelemetryStore._write_runs`. -/
def JSONLTelemetryStore._write_runs (store : JSONLTelemetryStore)
    (fingerprint : String) (runs : List TelemetryRun) : JSONLTelemetryStore :=
  { store with files := fun f =>
      if f == fingerprint then runs.map (fun r => some r.to_payload) else store.files f }

/-- `JSONLTelemetryStore.persist`: the existing history is read first, so
an uncaught `AttributeError` from `_read_runs` propagates before anything
is written. -/
def JSONLTelemetryStore.persist (store : JSONLTelemetryStore)
    (run : TelemetryRun) : PyResult JSONLTelemetryStore :=
  match store._read_runs run.fingerprint with
  | PyResult.ok history =>
      let history := history ++ [run]
      let history :=
        match store.max_history with
        | some n => takeLastPy n history
        | none => history
      PyResult.ok (store._write_runs run.fingerprint history)
  | PyResult.caught => PyResult.caught
  | PyResult.uncaught => PyResult.uncaught

/-- `JSONLTelemetryStore.history`. -/
def JSONLTelemetryStore.history (store : JSONLTelemetryStore)
    (fingerprint : String) : PyResult (List TelemetryRun) :=
  store._read_runs fingerprint

end Emperator

namespace Emperator

/-! ### Canonical-form lemmas for `pyDict` -/

theorem upsertEntry_keys (acc : List (String × String)) (kv : String × String) :
    (upsertEntry acc kv).map Prod.fst =
      if acc.any (fun p => p.1 == kv.1) then acc.map Prod.fst
      else acc.map Prod.fst ++ [kv.1] := by
  unfold upsertEntry
  split
  · rw [List.map_map]
    apply List.map_congr_left
    intro p _
    by_cases hp : p.1 = kv.1 <;> simp [hp]
  · simp

theorem upsertEntry_nodupkeys (acc : List (String × String)) (kv : String × String)
    (h : (acc.map Prod.fst).Nodup) : ((upsertEntry acc kv).map Prod.fst).Nodup := by
  rw [upsertEntry_keys]
  split
  · exact h
  · rename_i hany
    rw [List.nodup_append]
    refine ⟨h, List.nodup_singleton _, ?_⟩
    intro x hx hx1
    have hxk : x = kv.1 := by simpa using hx1
    obtain ⟨p, hp, hpx⟩ := List.mem_map.mp hx
    apply hany
    rw [List.any_eq_true]
    exact ⟨p, hp, by rw [hpx, hxk]; exact beq_self_eq_true _⟩

theorem foldl_upsert_nodupkeys (l : List (String × String)) :
    ∀ acc : List (String × String), (acc.map Prod.fst).Nodup →
      ((List.foldl upsertEntry acc l).map Prod.fst).Nodup := by
  induction l with
  | nil => intro acc h; exact h
  | cons kv t ih =>
      intro acc h
      exact ih (upsertEntry acc kv) (upsertEntry_nodupkeys acc kv h)

theorem pyDict_keys_nodup (l : List (String × String)) :
    ((pyDict l).map Prod.fst).Nodup := by
  unfold pyDict pySortBy
  have hfold := foldl_upsert_nodupkeys l [] (by simp)
  have hperm := (List.perm_insertionSort (keyLe Prod.fst) (List.foldl upsertEntry [] l)).map
    Prod.fst
  exact hperm.nodup_iff.mpr hfold

theorem foldl_upsert_of_nodupkeys (l : List (String × String)) :
    ∀ acc : List (String × String), (((acc ++ l).map Prod.fst)).Nodup →
      List.foldl upsertEntry acc l = acc ++ l := by
  induction l with
  | nil => intro acc _; simp
  | cons kv t ih =>
      intro acc h
      have hnotin : kv.1 ∉ acc.map Prod.fst := by
        intro hmem
        rw [List.map_append] at h
        have := (List.nodup_append.mp h).2.2
        exact this hmem (by simp)
      have hany : acc.any (fun p => p.1 == kv.1) = false := by
        rw [List.any_eq_false]
        intro p hp
        intro hbeq
        exact hnotin (List.mem_map.mpr ⟨p, hp, (eq_of_beq hbeq)⟩)
      have hup : upsertEntry acc kv = acc ++ [kv] := by
        unfold upsertEntry
        rw [hany]
        simp
      show List.foldl upsertEntry (upsertEntry acc kv) t = acc ++ kv :: t
      rw [hup]
      have happ : (acc ++ [kv]) ++ t = acc ++ kv :: t := by simp
      rw [← happ]
      apply ih
      rw [happ]
      exact h

theorem pyDict_sorted (l : List (String × String)) :
    List.Sorted (keyLe Prod.fst) (pyDict l) :=
  List.sorted_insertionSort _ _

theorem pyDict_idempotent (l : List (String × String)) :
    pyDict (pyDict l) = pyDict l := by
  have hnodup := pyDict_keys_nodup l
  have hfold : List.foldl upsertEntry [] (pyDict l) = pyDict l := by
    have := foldl_upsert_of_nodupkeys (pyDict l) []
    simpa using this (by simpa using hnodup)
  show pySortBy Prod.fst (List.foldl upsertEntry [] (pyDict l)) = pyDict l
  rw [hfold]
  exact List.Sorted.insertionSort_eq (pyDict_sorted l)

theorem foldl_upsert_length (l : List (String × String)) :
    ∀ acc : List (String × String), acc.length ≤ (List.foldl upsertEntry acc l).length := by
  induction l with
  | nil => intro acc; exact Nat.le_refl _
  | cons kv t ih =>
      intro acc
      refine Nat.le_trans ?_ (ih (upsertEntry acc kv))
      unfold upsertEntry
      split
      · simp
      · simp

theorem pyDict_ne_nil (l : List (String × String)) (h : l ≠ []) : pyDict l ≠ [] := by
  cases l with
  | nil => exact absurd rfl h
  | cons kv t =>
      intro hcontra
      have hlen : (pyDict (kv :: t)).length = 0 := by rw [hcontra]; rfl
      have hperm : (List.insertionSort (keyLe Prod.fst)
          (List.foldl upsertEntry [] (kv :: t))).length =
          (List.foldl upsertEntry [] (kv :: t)).length :=
        (List.perm_insertionSort _ _).length_eq
      have hge : 1 ≤ (List.foldl upsertEntry [] (kv :: t)).length := by
        show 1 ≤ (List.foldl upsertEntry (upsertEntry [] kv) t).length
        refine Nat.le_trans ?_ (foldl_upsert_length t (upsertEntry [] kv))
        unfold upsertEntry
        simp
      unfold pyDict pySortBy at hlen
      omega

end Emperator

namespace Emperator

/-- Canonicity of an optional metadata map: absent, or a non-empty map in
`pyDict` canonical form. -/
def metaCanonical : Option (List (String × String)) → Bool
  | none => true
  | some m => !m.isEmpty && (pyDict m == m)

/-- A telemetry event in the canonical `dict` representation of the model:
its metadata is absent, or a non-empty map in `pyDict` canonical form.
Every event the engine or the decoder builds is canonical. -/
def TelemetryEvent.canonical (e : TelemetryEvent) : Bool :=
  metaCanonical e.metadata

/-- A telemetry run all of whose events are canonical. -/
def TelemetryRun.canonical (r : TelemetryRun) : Bool :=
  r.events.all TelemetryEvent.canonical

theorem decodeMetadata_canonical {fields : List (String × Json)}
    {mo : Option (List (String × String))} (h : decodeMetadata fields = some mo) :
    metaCanonical mo = true := by
  unfold decodeMetadata at h
  split at h
  · have hmo : mo = none := by injection h with h1; exact h1.symm
    subst hmo
    rfl
  · split at h
    · have hmo : mo = none := by injection h with h1; exact h1.symm
      subst hmo
      rfl
    · rename_i j hf
      split at h
      · rename_i ms
        have hmo : mo = some (pyDict (ms.map fun kv => (kv.1, pyStr kv.2))) := by
          injection h with h1; exact h1.symm
        subst hmo
        show (!(pyDict (ms.map fun kv => (kv.1, pyStr kv.2))).isEmpty &&
          (pyDict (pyDict (ms.map fun kv => (kv.1, pyStr kv.2))) ==
            pyDict (ms.map fun kv => (kv.1, pyStr kv.2)))) = true
        have hms : ms ≠ [] := by
          intro hc
          apply hf
          rw [hc]
          rfl
        have hmap : (ms.map fun kv => (kv.1, pyStr kv.2)) ≠ [] := by
          intro hc
          exact hms (List.map_eq_nil_iff.mp hc)
        have hne := pyDict_ne_nil _ hmap
        have hid := pyDict_idempotent (ms.map fun kv => (kv.1, pyStr kv.2))
        simp only [Bool.and_eq_true, Bool.not_eq_true']
        constructor
        · cases hd : pyDict (ms.map fun kv => (kv.1, pyStr kv.2)) with
          | nil => exact absurd hd hne
          | cons a t => rfl
        · exact beq_iff_eq.mpr hid
      · exact Option.noConfusion h

theorem from_payload_event_canonical {j : Json} {e : TelemetryEvent}
    (h : TelemetryEvent.from_payload j = PyResult.ok e) : e.canonical = true := by
  unfold TelemetryEvent.from_payload at h
  split at h
  · split at h
    · split at h
      · exact PyResult.noConfusion h
      · split at h
        · rename_i cmd ec dur mo hcmd hec hdur hmo
          injection h with h1
          rw [← h1]
          show metaCanonical mo = true
          exact decodeMetadata_canonical hmo
        · exact PyResult.noConfusion h
    · exact PyResult.noConfusion h
  · exact PyResult.noConfusion h

theorem pyResultMapList_mem {α β : Type} {f : α → PyResult β} :
    ∀ {l : List α} {bs : List β}, pyResultMapList f l = PyResult.ok bs →
      ∀ b ∈ bs, ∃ a, f a = PyResult.ok b := by
  intro l
  induction l with
  | nil =>
      intro bs h b hb
      have hnil : bs = [] := by
        unfold pyResultMapList at h
        injection h with h₁
        exact h₁.symm
      rw [hnil] at hb
      exact absurd hb (by simp)
  | cons a t ih =>
      intro bs h b hb
      unfold pyResultMapList at h
      cases hfa : f a with
      | ok b₀ =>
          rw [hfa] at h
          cases hrest : pyResultMapList f t with
          | ok bs₀ =>
              rw [hrest] at h
              have hcons : bs = b₀ :: bs₀ := by injection h with h₁; exact h₁.symm
              rw [hcons] at hb
              rcases List.mem_cons.mp hb with hb | hb
              · exact ⟨a, by rw [hfa, hb]⟩
              · exact ih hrest b hb
          | caught => rw [hrest] at h; exact PyResult.noConfusion h
          | uncaught => rw [hrest] at h; exact PyResult.noConfusion h
      | caught => rw [hfa] at h; exact PyResult.noConfusion h
      | uncaught => rw [hfa] at h; exact PyResult.noConfusion h

theorem from_payload_run_canonical {j : Json} {r : TelemetryRun}
    (h : TelemetryRun.from_payload j = PyResult.ok r) : r.canonical = true := by
  unfold TelemetryRun.from_payload at h
  split at h
  · split at h
    · rename_i evs hevs
      split at h
      · split at h
        · split at h
          · rename_i nts hnts
            injection h with h1
            rw [← h1]
            show evs.all TelemetryEvent.canonical = true
            rw [List.all_eq_true]
            intro e hemem
            unfold decodeEvents at hevs
            split at hevs
            · have hnil : evs = [] := by injection hevs with h2; exact h2.symm
              subst hnil
              exact absurd hemem (by simp)
            · split at hevs
              · exact PyResult.noConfusion hevs
              · obtain ⟨a, ha⟩ := pyResultMapList_mem hevs e hemem
                exact from_payload_event_canonical ha
          · exact PyResult.noConfusion h
        · exact PyResult.noConfusion h
      · exact PyResult.noConfusion h
    · exact PyResult.noConfusion h
    · exact PyResult.noConfusion h
  · exact PyResult.noConfusion h

end Emperator

namespace Emperator

theorem mapStr_pyStr (l : List String) : (l.map Json.str).map pyStr = l := by
  induction l with
  | nil => rfl
  | cons s t ih => simp [pyStr, ih]

theorem mapPair_pyStr (m : List (String × String)) :
    ((m.map fun kv => (kv.1, Json.str kv.2)).map fun kv => (kv.1, pyStr kv.2)) = m := by
  induction m with
  | nil => rfl
  | cons kv t ih =>
      rw [List.map_cons, List.map_cons, ih]
      rfl

theorem event_payload_roundtrip (e : TelemetryEvent) (h : e.canonical = true) :
    TelemetryEvent.from_payload e.to_payload = PyResult.ok e := by
  obtain ⟨tool, command, ec, dur, ts, metadata⟩ := e
  cases metadata with
  | none =>
      have hstep : TelemetryEvent.from_payload
          (TelemetryEvent.to_payload ⟨tool, command, ec, dur, ts, none⟩) =
          (match parseIntStr (printInt ts) with
           | none => PyResult.caught
           | some t =>
               PyResult.ok ⟨tool, (command.map Json.str).map pyStr, ec, dur, t, none⟩) := rfl
      rw [hstep, parseIntStr_printInt, mapStr_pyStr]
  | some m =>
      have hcanon : (!m.isEmpty && (pyDict m == m)) = true := h
      rw [Bool.and_eq_true] at hcanon
      obtain ⟨hne, hpd'⟩ := hcanon
      have hpd : pyDict m = m := eq_of_beq hpd'
      have hmne : (m.map fun kv => (kv.1, Json.str kv.2)) ≠ [] := by
        intro hc
        rw [List.map_eq_nil_iff.mp hc] at hne
        simp at hne
      have hfalsy : jsonFalsy (Json.obj (m.map fun kv => (kv.1, Json.str kv.2))) = false := by
        show (m.map fun kv => (kv.1, Json.str kv.2)).isEmpty = false
        cases hmm : m.map fun kv => (kv.1, Json.str kv.2) with
        | nil => exact absurd hmm hmne
        | cons a t => rfl
      have hstep : TelemetryEvent.from_payload
          (TelemetryEvent.to_payload ⟨tool, command, ec, dur, ts, some m⟩) =
          (match parseIntStr (printInt ts) with
           | none => PyResult.caught
           | some t =>
               match (some ((command.map Json.str).map pyStr) : Option (List String)),
                     (some ec : Option Int), (some dur : Option Int),
                     decodeMetadata
                       [("command", Json.arr (command.map Json.str)),
                        ("duration_seconds", Json.num dur), ("exit_code", Json.num ec),
                        ("metadata", Json.obj (m.map fun kv => (kv.1, Json.str kv.2))),
                        ("timestamp", Json.str (printInt ts)), ("tool", Json.str tool)] with
               | some cmd, some ec2, some dur2, some mo =>
                   PyResult.ok ⟨tool, cmd, ec2, dur2, t, mo⟩
               | _, _, _, _ => PyResult.caught) := rfl
      have hdm : decodeMetadata
          [("command", Json.arr (command.map Json.str)),
           ("duration_seconds", Json.num dur), ("exit_code", Json.num ec),
           ("metadata", Json.obj (m.map fun kv => (kv.1, Json.str kv.2))),
           ("timestamp", Json.str (printInt ts)), ("tool", Json.str tool)] =
          some (some (pyDict ((m.map fun kv => (kv.1, Json.str kv.2)).map
            fun kv => (kv.1, pyStr kv.2)))) := by
        show (if jsonFalsy (Json.obj (m.map fun kv => (kv.1, Json.str kv.2))) = true
              then some none
              else some (some (pyDict ((m.map fun kv => (kv.1, Json.str kv.2)).map
                fun kv => (kv.1, pyStr kv.2))))) = _
        rw [hfalsy]
        rfl
      rw [hstep, parseIntStr_printInt, hdm, mapStr_pyStr, mapPair_pyStr, hpd]

end Emperator

namespace Emperator

theorem pyResultMapList_map_ok {α β : Type} (f : β → PyResult α) (g : α → β)
    (l : List α) (h : ∀ x ∈ l, f (g x) = PyResult.ok x) :
    pyResultMapList f (l.map g) = PyResult.ok l := by
  induction l with
  | nil => rfl
  | cons a t ih =>
      rw [List.map_cons]
      rw [show pyResultMapList f (g a :: t.map g) =
        (match f (g a) with
         | PyResult.ok b =>
             match pyResultMapList f (t.map g) with
             | PyResult.ok bs => PyResult.ok (b :: bs)
             | PyResult.caught => PyResult.caught
             | PyResult.uncaught => PyResult.uncaught
         | PyResult.caught => PyResult.caught
         | PyResult.uncaught => PyResult.uncaught) from rfl]
      rw [h a (List.mem_cons_self a t)]
      rw [ih (fun x hx => h x (List.mem_cons_of_mem a hx))]

theorem run_payload_roundtrip (r : TelemetryRun) (h : r.canonical = true) :
    TelemetryRun.from_payload r.to_payload = PyResult.ok r := by
  obtain ⟨fp, pr, sa, ca, events, notes⟩ := r
  have hall : ∀ e ∈ events, TelemetryEvent.canonical e = true := by
    intro e he
    exact List.all_eq_true.mp h e he
  have hevents : pyResultMapList TelemetryEvent.from_payload
      (events.map TelemetryEvent.to_payload) = PyResult.ok events :=
    pyResultMapList_map_ok _ _ events (fun e he => event_payload_roundtrip e (hall e he))
  have hstep : TelemetryRun.from_payload
      (TelemetryRun.to_payload ⟨fp, pr, sa, ca, events, notes⟩) =
      (match pyResultMapList TelemetryEvent.from_payload
              (events.map TelemetryEvent.to_payload) with
       | PyResult.ok evs =>
           match parseIntStr (printInt sa), parseIntStr (printInt ca) with
           | some sa2, some ca2 =>
               PyResult.ok ⟨fp, pr, sa2, ca2, evs, (notes.map Json.str).map pyStr⟩
           | _, _ => PyResult.caught
       | PyResult.caught => PyResult.caught
       | PyResult.uncaught => PyResult.uncaught) := rfl
  rw [hstep, hevents, parseIntStr_printInt, parseIntStr_printInt, mapStr_pyStr]

end Emperator

namespace Emperator

theorem readLines_canonical :
    ∀ (lines : List (Option Json)) (runs : List TelemetryRun),
      readLines lines = PyResult.ok runs → ∀ r ∈ runs, r.canonical = true := by
  intro lines
  induction lines with
  | nil =>
      intro runs h r hr
      have hnil : runs = [] := by
        unfold readLines at h
        injection h with h₁
        exact h₁.symm
      rw [hnil] at hr
      exact absurd hr (by simp)
  | cons line rest ih =>
      intro runs h r hr
      cases line with
      | none => exact ih runs h r hr
      | some p =>
          have hstep : readLines (some p :: rest) =
              (match TelemetryRun.from_payload p with
               | PyResult.ok r₀ =>
                   match readLines rest with
                   | PyResult.ok rs => PyResult.ok (r₀ :: rs)
                   | PyResult.caught => PyResult.caught
                   | PyResult.uncaught => PyResult.uncaught
               | PyResult.caught => readLines rest
               | PyResult.uncaught => PyResult.uncaught) := rfl
          rw [hstep] at h
          cases hfp : TelemetryRun.from_payload p with
          | ok r₀ =>
              rw [hfp] at h
              cases hrest : readLines rest with
              | ok rs =>
                  rw [hrest] at h
                  have hcons : runs = r₀ :: rs := by injection h with h₁; exact h₁.symm
                  rw [hcons] at hr
                  rcases List.mem_cons.mp hr with hr | hr
                  · rw [hr]
                    exact from_payload_run_canonical hfp
                  · exact ih rs hrest r hr
              | caught => rw [hrest] at h; exact PyResult.noConfusion h
              | uncaught => rw [hrest] at h; exact PyResult.noConfusion h
          | caught =>
              rw [hfp] at h
              exact ih runs h r hr
          | uncaught =>
              rw [hfp] at h
              exact PyResult.noConfusion h

theorem readRuns_canonical (store : JSONLTelemetryStore) (fp : String)
    (runs : List TelemetryRun) (h : store._read_runs fp = PyResult.ok runs) :
    ∀ r ∈ runs, r.canonical = true :=
  readLines_canonical (store.files fp) runs h

theorem readLines_roundtrip (runs : List TelemetryRun)
    (h : ∀ r ∈ runs, r.canonical = true) :
    readLines (runs.map fun r => (some r.to_payload : Option Json)) =
      PyResult.ok runs := by
  induction runs with
  | nil => rfl
  | cons r t ih =>
      rw [List.map_cons]
      rw [show readLines ((some r.to_payload : Option Json) ::
            t.map fun x => (some x.to_payload : Option Json)) =
        (match TelemetryRun.from_payload r.to_payload with
         | PyResult.ok r₀ =>
             match readLines (t.map fun x => (some x.to_payload : Option Json)) with
             | PyResult.ok rs => PyResult.ok (r₀ :: rs)
             | PyResult.caught => PyResult.caught
             | PyResult.uncaught => PyResult.uncaught
         | PyResult.caught =>
             readLines (t.map fun x => (some x.to_payload : Option Json))
         | PyResult.uncaught => PyResult.uncaught) from rfl]
      rw [run_payload_roundtrip r (h r (List.mem_cons_self r t))]
      rw [ih (fun x hx => h x (List.mem_cons_of_mem r hx))]

/-- When the existing file reads cleanly, `persist` succeeds and writes the
read history plus the new run (no truncation configured). -/
theorem persist_of_read (store : JSONLTelemetryStore) (run : TelemetryRun)
    (olds : List TelemetryRun)
    (h : store._read_runs run.fingerprint = PyResult.ok olds)
    (hmax : store.max_history = none) :
    store.persist run =
      PyResult.ok (store._write_runs run.fingerprint (olds ++ [run])) := by
  unfold JSONLTelemetryStore.persist
  rw [h, hmax]

end Emperator

namespace Emperator

theorem takeLastPy_concat {α : Type} (n : Nat) (h : List α) (a : α) :
    ∃ t, takeLastPy n (h ++ [a]) = t ++ [a] := by
  unfold takeLastPy
  by_cases hn : n = 0
  · exact ⟨h, by rw [if_pos hn]⟩
  · rw [if_neg hn]
    have hk : (h ++ [a]).length - n ≤ h.length := by
      simp only [List.length_append, List.length_singleton]
      omega
    refine ⟨h.drop ((h ++ [a]).length - n), ?_⟩
    rw [List.drop_append_of_le_length hk]

theorem takeLastPy_subset {α : Type} (n : Nat) (xs : List α) :
    ∀ x ∈ takeLastPy n xs, x ∈ xs := by
  unfold takeLastPy
  split
  · intro x hx
    exact hx
  · intro x hx
    exact List.mem_of_mem_drop hx

/-- `persist` followed immediately by `history(fingerprint)`, composed
through the store's exception model. -/
def persistThenHistory (store : JSONLTelemetryStore) (run : TelemetryRun) :
    PyResult (List TelemetryRun) :=
  match store.persist run with
  | PyResult.ok store₂ => store₂.history run.fingerprint
  | PyResult.caught => PyResult.caught
  | PyResult.uncaught => PyResult.uncaught

/-- Event with an empty (non-`None`) metadata dict, falsifying the claim as
stated. -/
def c6BadEvent : TelemetryEvent := ⟨"t", [], 0, 0, 0, some []⟩

/-- Run containing the empty-metadata event. -/
def c6BadRun : TelemetryRun := ⟨"fp", "/r", 0, 0, [c6BadEvent], []⟩

/-- An empty file-backed store for the C6 counterexample. -/
def c6Store : JSONLTelemetryStore := ⟨fun _ => [], none⟩

/-- What `c6BadRun` rehydrates to: the empty metadata dict has become
`None`. -/
def c6FixedEvent : TelemetryEvent := ⟨"t", [], 0, 0, 0, none⟩

def c6FixedRun : TelemetryRun := ⟨"fp", "/r", 0, 0, [c6FixedEvent], []⟩

/-- C6, counterexample to the claim as stated: `from_payload` applies
`payload.get("metadata") or None`, so an event whose metadata is the empty
dict rehydrates with metadata `None`; persisting such a run and calling
`history` returns a run differing in that field from the one persisted. -/
theorem C6_counterexample_empty_metadata :
    TelemetryRun.from_payload c6BadRun.to_payload ≠ PyResult.ok c6BadRun ∧
    persistThenHistory c6Store c6BadRun = PyResult.ok [c6FixedRun] ∧
    c6FixedRun ≠ c6BadRun := by
  refine ⟨by decide, by decide, by decide⟩

/-- C6, amended: for every run whose events carry either no metadata or a
non-empty metadata dict (in the canonical sorted form of the dict model),
`from_payload` is a left inverse of `to_payload`; and whenever the prior
file content reads cleanly (no valid-JSON non-object line, on which
`_read_runs` raises - the C5 counterexample), persisting the run succeeds
and makes it the most recent entry of `history(fingerprint)`, equal in all
fields, for any such prior content and any `max_history` configuration. -/
theorem C6_persist_history_roundtrip :
    (∀ r : TelemetryRun, r.canonical = true →
      TelemetryRun.from_payload r.to_payload = PyResult.ok r) ∧
    (∀ (store : JSONLTelemetryStore) (r : TelemetryRun)
        (olds : List TelemetryRun),
      r.canonical = true →
      store._read_runs r.fingerprint = PyResult.ok olds →
      ∃ store₂, store.persist r = PyResult.ok store₂ ∧
        ∃ runs, store₂.history r.fingerprint = PyResult.ok runs ∧
          runs.getLast? = some r) := by
  refine ⟨run_payload_roundtrip, ?_⟩
  intro store r olds hcanon holds
  have hcanon₂ : ∀ x ∈ olds ++ [r], x.canonical = true := by
    intro x hx
    rcases List.mem_append.mp hx with hx | hx
    · exact readRuns_canonical store r.fingerprint olds holds x hx
    · have hxr : x = r := by simpa using hx
      rw [hxr]
      exact hcanon
  cases hmax : store.max_history with
  | none =>
      refine ⟨_, persist_of_read store r olds holds hmax, ?_⟩
      refine ⟨olds ++ [r], ?_, by rw [List.getLast?_concat]⟩
      unfold JSONLTelemetryStore.history JSONLTelemetryStore._write_runs
        JSONLTelemetryStore._read_runs
      simp only [beq_self_eq_true, if_pos]
      exact readLines_roundtrip (olds ++ [r]) hcanon₂
  | some n =>
      have hp : store.persist r =
          PyResult.ok (store._write_runs r.fingerprint
            (takeLastPy n (olds ++ [r]))) := by
        unfold JSONLTelemetryStore.persist
        rw [holds, hmax]
      obtain ⟨t, ht⟩ := takeLastPy_concat n olds r
      refine ⟨_, hp, ?_⟩
      refine ⟨takeLastPy n (olds ++ [r]), ?_, ?_⟩
      · unfold JSONLTelemetryStore.history JSONLTelemetryStore._write_runs
          JSONLTelemetryStore._read_runs
        simp only [beq_self_eq_true, if_pos]
        refine readLines_roundtrip _ ?_
        intro x hx
        exact hcanon₂ x (takeLastPy_subset n (olds ++ [r]) x hx)
      · rw [ht]
        rw [List.getLast?_concat]

/-- Witness run for C6 (canonical metadata). -/
def c6GoodRun : TelemetryRun :=
  ⟨"fp", "/r", 0, 4, [⟨"Semgrep", ["semgrep"], 0, 2, 2, some [("description", "scan")]⟩],
   ["ok"]⟩

/-- Witness for C6 at a concrete canonical run and store. -/
theorem C6_persist_history_roundtrip_witness :
    (TelemetryRun.from_payload c6GoodRun.to_payload = PyResult.ok c6GoodRun) ∧
    (∃ store₂, c6Store.persist c6GoodRun = PyResult.ok store₂ ∧
      ∃ runs, store₂.history c6GoodRun.fingerprint = PyResult.ok runs ∧
        runs.getLast? = some c6GoodRun) :=
  ⟨C6_persist_history_roundtrip.1 c6GoodRun (by decide),
   C6_persist_history_roundtrip.2 c6Store c6GoodRun [] (by decide) (by decide)⟩

end Emperator

namespace Emperator

/-! ## CodeQL database cache: `codeql.py`

`CodeQLDatabase` is the frozen dataclass of codeql.py (lines 38-47); a
`Path` is an opaque resolved string and `created_at : Int` is the epoch
second of the aware datetime (datetimes compare by their instant, and
`timedelta(days=d)` is `d * 86400` seconds).  `list_databases` scans the
cache directory for metadata manifests - the scan result, in `rglob`
order, is the `found` parameter - and sorts them newest-first;
`list.sort(key=..., reverse=True)` is stable with respect to the original
order, exactly like `List.insertionSort` with the reflexive total
relation `newestLe`. -/

structure CodeQLDatabase where
  language : String
  path : String
  source_root : String
  created_at : Int
  size_bytes : Int
  fingerprint : String
deriving DecidableEq

/-- `a` sorts before `b` under `sort(key=created_at, reverse=True)`. -/
def newestLe (a b : CodeQLDatabase) : Prop := b.created_at ≤ a.created_at

instance : DecidableRel newestLe := fun a b => by
  unfold newestLe
  infer_instance

instance : IsTotal CodeQLDatabase newestLe :=
  ⟨fun a b => le_total b.created_at a.created_at⟩

instance : IsTrans CodeQLDatabase newestLe :=
  ⟨fun _ _ _ h₁ h₂ => le_trans h₂ h₁⟩

/-- `CodeQLManager.list_databases` (codeql.py lines 187-195): the
discovered manifests sorted newest-first. -/
def CodeQLManager.list_databases (found : List CodeQLDatabase) :
    List CodeQLDatabase :=
  List.insertionSort newestLe found

/-- `sum(db.size_bytes for db in dbs)`. -/
def totalSize (dbs : List CodeQLDatabase) : Int :=
  (dbs.map CodeQLDatabase.size_bytes).sum

/-- The size pass of `CodeQLManager.prune` (codeql.py lines 215-222): walk
`reversed(remaining)` (oldest first), breaking as soon as
`total <= max_total_bytes`, otherwise removing the database's directory
and subtracting its size from the running total. -/
def pruneSizeLoop (max_total_bytes : Int) :
    List CodeQLDatabase → Int → List String
  | [], _ => []
  | db :: rest, total =>
      if total ≤ max_total_bytes then []
      else db.path :: pruneSizeLoop max_total_bytes rest (total - db.size_bytes)

/-- `CodeQLManager.prune` (codeql.py lines 197-223).  `now` models
`datetime.now(tz=UTC)`.  The age pass iterates over a copy of `remaining`
removing matches; `remaining.remove(db)` drops the first structurally
equal element, so after the loop the survivors are exactly the
non-matches and the removed paths are the matches in list order, which
the filters below express.  The size pass then walks the reversed
survivor list. -/
def CodeQLManager.prune (found : List CodeQLDatabase) (now : Int)
    (older_than_days max_total_bytes : Option Int) : List String :=
  let dbs := CodeQLManager.list_databases found
  let cutoff : Option Int := older_than_days.map (fun d => now - d * 86400)
  let removedAge : List String :=
    match cutoff with
    | none => []
    | some c =>
        (dbs.filter (fun db => decide (db.created_at < c))).map CodeQLDatabase.path
  let remaining : List CodeQLDatabase :=
    match cutoff with
    | none => dbs
    | some c => dbs.filter (fun db => !decide (db.created_at < c))
  let removedSize : List String :=
    match max_total_bytes with
    | none => []
    | some mb => pruneSizeLoop mb remaining.reverse (totalSize remaining)
  removedAge ++ removedSize

/-- Spec wording for the age policy: the databases strictly older than the
cutoff instant, in the order `list_databases` yields them. -/
def ageEvicted (dbs : List CodeQLDatabase) (cutoff : Int) : List CodeQLDatabase :=
  dbs.filter (fun db => decide (db.created_at < cutoff))

/-- Spec wording: the databases surviving the age policy. -/
def ageSurvivors (dbs : List CodeQLDatabase) (cutoff : Int) : List CodeQLDatabase :=
  dbs.filter (fun db => !decide (db.created_at < cutoff))

theorem prune_age_only_eq (found : List CodeQLDatabase) (now dd : Int) :
    CodeQLManager.prune found now (some dd) none =
      (ageEvicted (CodeQLManager.list_databases found) (now - dd * 86400)).map
        CodeQLDatabase.path :=
  List.append_nil _

theorem prune_both_eq (found : List CodeQLDatabase) (now dd mb : Int) :
    CodeQLManager.prune found now (some dd) (some mb) =
      (ageEvicted (CodeQLManager.list_databases found) (now - dd * 86400)).map
        CodeQLDatabase.path ++
      pruneSizeLoop mb
        ((ageSurvivors (CodeQLManager.list_databases found)
          (now - dd * 86400)).reverse)
        (totalSize (ageSurvivors (CodeQLManager.list_databases found)
          (now - dd * 86400))) := rfl

theorem prune_size_only_eq (found : List CodeQLDatabase) (now mb : Int) :
    CodeQLManager.prune found now none (some mb) =
      pruneSizeLoop mb ((CodeQLManager.list_databases found).reverse)
        (totalSize (CodeQLManager.list_databases found)) := rfl

theorem totalSize_take_add_drop (l : List CodeQLDatabase) (k : Nat) :
    totalSize (l.take k) + totalSize (l.drop k) = totalSize l := by
  unfold totalSize
  rw [List.map_take, List.map_drop, List.sum_take_add_sum_drop]

theorem totalSize_reverse (l : List CodeQLDatabase) :
    totalSize l.reverse = totalSize l := by
  unfold totalSize
  rw [List.map_reverse, List.sum_reverse]

/-- The size pass removes a prefix of the oldest-first list: the loop stops
at the first point where the running total is within budget (or after
exhausting the list), and every removal happens while the budget is still
exceeded. -/
theorem pruneSizeLoop_spec (mb : Int) :
    ∀ (olds : List CodeQLDatabase) (total : Int),
      ∃ k, k ≤ olds.length ∧
        pruneSizeLoop mb olds total = (olds.take k).map CodeQLDatabase.path ∧
        (total - totalSize (olds.take k) ≤ mb ∨ k = olds.length) ∧
        (∀ j, j < k → mb < total - totalSize (olds.take j)) := by
  intro olds
  induction olds with
  | nil =>
      intro total
      refine ⟨0, Nat.le_refl 0, rfl, Or.inr rfl, ?_⟩
      intro j hj
      exact absurd hj (Nat.not_lt_zero j)
  | cons db rest ih =>
      intro total
      by_cases htot : total ≤ mb
      · refine ⟨0, Nat.zero_le _, ?_, ?_, ?_⟩
        · show (if total ≤ mb then [] else
            db.path :: pruneSizeLoop mb rest (total - db.size_bytes)) =
              (List.take 0 (db :: rest)).map CodeQLDatabase.path
          rw [if_pos htot]
          rfl
        · left
          have h0 : totalSize (List.take 0 (db :: rest)) = 0 := rfl
          omega
        · intro j hj
          exact absurd hj (Nat.not_lt_zero j)
      · obtain ⟨k, hk, heq, hb, hmin⟩ := ih (total - db.size_bytes)
        refine ⟨k + 1, Nat.succ_le_succ hk, ?_, ?_, ?_⟩
        · show (if total ≤ mb then [] else
            db.path :: pruneSizeLoop mb rest (total - db.size_bytes)) =
              (List.take (k + 1) (db :: rest)).map CodeQLDatabase.path
          rw [if_neg htot, heq]
          rfl
        · have hts : totalSize (List.take (k + 1) (db :: rest)) =
              db.size_bytes + totalSize (List.take k rest) := by
            show totalSize (db :: List.take k rest) = _
            unfold totalSize
            rw [List.map_cons, List.sum_cons]
          rcases hb with hb | hb
          · left
            omega
          · right
            simp only [List.length_cons]
            omega
        · intro j hj
          cases j with
          | zero =>
              have h0 : totalSize (List.take 0 (db :: rest)) = 0 := rfl
              omega
          | succ j₂ =>
              have hj₂ : j₂ < k := Nat.lt_of_succ_lt_succ hj
              have hmj := hmin j₂ hj₂
              have hts : totalSize (List.take (j₂ + 1) (db :: rest)) =
                  db.size_bytes + totalSize (List.take j₂ rest) := by
                show totalSize (db :: List.take j₂ rest) = _
                unfold totalSize
                rw [List.map_cons, List.sum_cons]
              omega

end Emperator

namespace Emperator

/-- **C7** (prune composition): (1) `prune` with neither parameter removes
nothing; (2) `list_databases` is a newest-first sorted permutation of the
discovered manifests; (3) with only `older_than_days` it removes exactly
the databases older than `now` minus that many days; (4) with both
parameters it removes the age evictions followed by an oldest-first
prefix of the age survivors chosen so that the surviving total size is at
or below `max_total_bytes` (or the cache is exhausted), each size
eviction happening only while the budget is still exceeded; (5) the same
size characterization holds with no age parameter.  The returned list is
exactly the removed directory paths. -/
theorem C7_prune_composition :
    (∀ (found : List CodeQLDatabase) (now : Int),
        CodeQLManager.prune found now none none = []) ∧
    (∀ found : List CodeQLDatabase,
        (CodeQLManager.list_databases found).Perm found ∧
        List.Sorted newestLe (CodeQLManager.list_databases found)) ∧
    (∀ (found : List CodeQLDatabase) (now dd : Int),
        CodeQLManager.prune found now (some dd) none =
          (ageEvicted (CodeQLManager.list_databases found)
            (now - dd * 86400)).map CodeQLDatabase.path) ∧
    (∀ (found : List CodeQLDatabase) (now dd mb : Int),
        ∃ k,
          k ≤ (ageSurvivors (CodeQLManager.list_databases found)
            (now - dd * 86400)).reverse.length ∧
          CodeQLManager.prune found now (some dd) (some mb) =
            (ageEvicted (CodeQLManager.list_databases found)
              (now - dd * 86400)).map CodeQLDatabase.path ++
            ((ageSurvivors (CodeQLManager.list_databases found)
              (now - dd * 86400)).reverse.take k).map CodeQLDatabase.path ∧
          (totalSize ((ageSurvivors (CodeQLManager.list_databases found)
              (now - dd * 86400)).reverse.drop k) ≤ mb ∨
            k = (ageSurvivors (CodeQLManager.list_databases found)
              (now - dd * 86400)).reverse.length) ∧
          (∀ j, j < k →
            mb < totalSize (ageSurvivors (CodeQLManager.list_databases found)
                (now - dd * 86400)) -
              totalSize ((ageSurvivors (CodeQLManager.list_databases found)
                (now - dd * 86400)).reverse.take j))) ∧
    (∀ (found : List CodeQLDatabase) (now mb : Int),
        ∃ k,
          k ≤ (CodeQLManager.list_databases found).reverse.length ∧
          CodeQLManager.prune found now none (some mb) =
            ((CodeQLManager.list_databases found).reverse.take k).map
              CodeQLDatabase.path ∧
          (totalSize ((CodeQLManager.list_databases found).reverse.drop k) ≤ mb ∨
            k = (CodeQLManager.list_databases found).reverse.length) ∧
          (∀ j, j < k →
            mb < totalSize (CodeQLManager.list_databases found) -
              totalSize ((CodeQLManager.list_databases found).reverse.take j))) := by
  refine ⟨fun found now => rfl,
    fun found => ⟨List.perm_insertionSort newestLe found,
      List.sorted_insertionSort newestLe found⟩,
    fun found now dd => prune_age_only_eq found now dd, ?_, ?_⟩
  · intro found now dd mb
    obtain ⟨k, hk, heq, hb, hmin⟩ := pruneSizeLoop_spec mb
      ((ageSurvivors (CodeQLManager.list_databases found)
        (now - dd * 86400)).reverse)
      (totalSize (ageSurvivors (CodeQLManager.list_databases found)
        (now - dd * 86400)))
    refine ⟨k, hk, ?_, ?_, hmin⟩
    · rw [prune_both_eq, heq]
    · have h₁ := totalSize_take_add_drop
        ((ageSurvivors (CodeQLManager.list_databases found)
          (now - dd * 86400)).reverse) k
      have h₂ := totalSize_reverse
        (ageSurvivors (CodeQLManager.list_databases found) (now - dd * 86400))
      rcases hb with hb | hb
      · left
        omega
      · right
        exact hb
  · intro found now mb
    obtain ⟨k, hk, heq, hb, hmin⟩ := pruneSizeLoop_spec mb
      ((CodeQLManager.list_databases found).reverse)
      (totalSize (CodeQLManager.list_databases found))
    refine ⟨k, hk, ?_, ?_, hmin⟩
    · rw [prune_size_only_eq, heq]
    · have h₁ := totalSize_take_add_drop
        ((CodeQLManager.list_databases found).reverse) k
      have h₂ := totalSize_reverse (CodeQLManager.list_databases found)
      rcases hb with hb | hb
      · left
        omega
      · right
        exact hb

/-- Witness cache: sizes 256/512/42 bytes, ages 1 day / 10 days / 0 days
before the witness instant. -/
def c7Now : Int := 1000000

def c7A : CodeQLDatabase := ⟨"python", "/a", "/src", 913600, 256, "fa"⟩

def c7B : CodeQLDatabase := ⟨"java", "/b", "/src", 136000, 512, "fb"⟩

def c7C : CodeQLDatabase := ⟨"go", "/c", "/src", 1000000, 42, "fc"⟩

def c7Found : List CodeQLDatabase := [c7A, c7B, c7C]

/-- Witness for C7: no parameters removes nothing; `older_than_days=5`
removes only the 10-day-old database; a subsequent `max_total_bytes=128`
over the survivors removes the oldest (256-byte) entry, leaving 42 ≤ 128. -/
theorem C7_prune_composition_witness :
    CodeQLManager.prune c7Found c7Now none none = [] ∧
    CodeQLManager.prune c7Found c7Now (some 5) none = ["/b"] ∧
    CodeQLManager.prune [c7A, c7C] c7Now none (some 128) = ["/a"] :=
  ⟨C7_prune_composition.1 c7Found c7Now,
   by
     rw [C7_prune_composition.2.2.1 c7Found c7Now 5]
     decide,
   by decide⟩

end Emperator

namespace Emperator

/-! ## `CodeQLManager.create_database` (codeql.py lines 91-131)

The create flow is modelled as a pure function returning the result
together with the ordered trace of filesystem and process effects it
performs, so that "before any filesystem mutation" is statable.  The
environment snapshot carries the manager's configured `codeql_path`, the
result of `shutil.which('codeql')` (consulted by `_discover_codeql` only
when `codeql_path` is `None`), whether the target directory exists, the
metadata manifest found there by `_load_metadata` (if any), the outcome
of the external `codeql database create` process, and the values
`_collect_metadata` would observe.  `_fingerprint_source` hashes the
source tree, so its digest is an environment input as well. -/

/-- Filesystem and process effects of `create_database`, in order. -/
inductive FsOp where
  | rmtree (path : String)
  | mkdir (path : String)
  | runProcess (command : List String)
  | writeMetadata (path : String)
deriving DecidableEq

inductive CodeQLErr where
  | unavailable (message : String)
  | commandFailed (message : String)
deriving DecidableEq

def UNAVAILABLE_MESSAGE : String :=
  "CodeQL CLI was not found on PATH. Install CodeQL and ensure the binary is discoverable."

structure CreateDbEnv where
  codeql_path : Option String
  which_codeql : Option String
  target_exists : Bool
  target_metadata : Option CodeQLDatabase
  create_ok : Bool
  create_exit_code : Int
  create_stderr : String
  now : Int
  dir_size : Int
  source_fingerprint : String
deriving DecidableEq

/-- `fingerprint[:12]`. -/
def strTake (n : Nat) (s : String) : String := String.mk (s.data.take n)

/-- `_discover_codeql` (codeql.py lines 81-89). -/
def CodeQLManager._discover_codeql (which_codeql : Option String) :
    Except CodeQLErr String :=
  match which_codeql with
  | none => Except.error (CodeQLErr.unavailable UNAVAILABLE_MESSAGE)
  | some location => Except.ok location

/-- `_ensure_codeql` (codeql.py lines 307-310). -/
def CodeQLManager._ensure_codeql (env : CreateDbEnv) : Except CodeQLErr String :=
  match env.codeql_path with
  | some p => Except.ok p
  | none => CodeQLManager._discover_codeql env.which_codeql

/-- The resolved target directory (codeql.py line 103):
`output or cache_dir / f'\x7blanguage\x7d-\x7bfingerprint[:12]\x7d'`. -/
def targetDirOf (env : CreateDbEnv) (language cache_dir : String)
    (output : Option String) : String :=
  match output with
  | some o => o
  | none => cache_dir ++ "/" ++ language ++ "-" ++ strTake 12 env.source_fingerprint

/-- The portion of `create_database` after the cache-hit check (codeql.py
lines 109-131): conditional `rmtree`, `mkdir`, `_ensure_codeql`, the
external create process, then `_collect_metadata`/`cache_database`. -/
def _create_database_uncached (env : CreateDbEnv)
    (source_root language fingerprint target_dir : String) (force : Bool)
    (extra_args : List String) : Except CodeQLErr CodeQLDatabase × List FsOp :=
  let ops₀ : List FsOp :=
    if env.target_exists && force then [FsOp.rmtree target_dir] else []
  let ops₁ := ops₀ ++ [FsOp.mkdir target_dir]
  match CodeQLManager._ensure_codeql env with
  | Except.error e => (Except.error e, ops₁)
  | Except.ok codeql =>
      let command := [codeql, "database", "create", target_dir, "--language",
        language, "--source-root", source_root, "--threads", "auto",
        "--overwrite"] ++ extra_args
      let ops₂ := ops₁ ++ [FsOp.runProcess command]
      if env.create_ok then
        let database : CodeQLDatabase :=
          ⟨language, target_dir, source_root, env.now, env.dir_size, fingerprint⟩
        (Except.ok database,
          ops₂ ++ [FsOp.writeMetadata (target_dir ++ "/metadata.json")])
      else
        (Except.error (CodeQLErr.commandFailed
          ("CodeQL command failed with exit code " ++
            printInt env.create_exit_code ++ ": " ++ env.create_stderr)), ops₂)

/-- `CodeQLManager.create_database` (codeql.py lines 91-131): the cache-hit
check short-circuits with no effects; otherwise the uncached flow runs. -/
def CodeQLManager.create_database (env : CreateDbEnv)
    (source_root language cache_dir : String) (output : Option String)
    (force : Bool) (extra_args : List String) :
    Except CodeQLErr CodeQLDatabase × List FsOp :=
  let fingerprint := env.source_fingerprint
  let target_dir := targetDirOf env language cache_dir output
  if env.target_exists && !force then
    match env.target_metadata with
    | some metadata => (Except.ok metadata, [])
    | none =>
        _create_database_uncached env source_root language fingerprint target_dir
          force extra_args
  else
    _create_database_uncached env source_root language fingerprint target_dir
      force extra_args

theorem _create_database_uncached_unavailable (env : CreateDbEnv)
    (source_root language fingerprint target_dir : String) (force : Bool)
    (extra_args : List String) (h₁ : env.codeql_path = none)
    (h₂ : env.which_codeql = none) :
    _create_database_uncached env source_root language fingerprint target_dir
        force extra_args =
      (Except.error (CodeQLErr.unavailable UNAVAILABLE_MESSAGE),
        (if env.target_exists && force then [FsOp.rmtree target_dir] else []) ++
          [FsOp.mkdir target_dir]) := by
  unfold _create_database_uncached CodeQLManager._ensure_codeql
    CodeQLManager._discover_codeql
  rw [h₁, h₂]

end Emperator

namespace Emperator

/-- No discoverable CodeQL CLI and a fresh (non-existing) cache slot. -/
def c8Env : CreateDbEnv :=
  ⟨none, none, false, none, true, 0, "", 0, 0, "abcdef0123456789"⟩

/-- **C8 counterexample**: with no discoverable CodeQL CLI,
`create_database` does raise the distinct unavailable error, but not
before every filesystem mutation: `target_dir.mkdir` (codeql.py line 112)
runs before `_ensure_codeql` (line 113), so the effect trace of the
failing call contains the directory creation. -/
theorem C8_counterexample_mkdir_before_unavailable :
    (CodeQLManager.create_database c8Env "/src" "python" "/cache" none false
        []).1 =
      Except.error (CodeQLErr.unavailable UNAVAILABLE_MESSAGE) ∧
    FsOp.mkdir "/cache/python-abcdef012345" ∈
      (CodeQLManager.create_database c8Env "/src" "python" "/cache" none false
        []).2 := by
  constructor
  · rfl
  · decide

/-- **C8** (amended): when neither the configured `codeql_path` nor
`shutil.which('codeql')` yields the CLI and the cached-metadata
short-circuit does not fire, `create_database` raises the distinct
unavailable error (`CodeQLUnavailableError`, never the generic manager
error) before the external create process runs and before any metadata
is written, but after preparing the target directory: the effect trace is
exactly an `rmtree` (only when forcing over an existing directory)
followed by `mkdir`. -/
theorem C8_unavailable_error_before_process :
    ∀ (env : CreateDbEnv) (source_root language cache_dir : String)
      (output : Option String) (force : Bool) (extra_args : List String),
      env.codeql_path = none → env.which_codeql = none →
      (env.target_exists = false ∨ force = true ∨ env.target_metadata = none) →
      CodeQLManager.create_database env source_root language cache_dir output
          force extra_args =
        (Except.error (CodeQLErr.unavailable UNAVAILABLE_MESSAGE),
          (if env.target_exists && force then
            [FsOp.rmtree (targetDirOf env language cache_dir output)]
          else []) ++
            [FsOp.mkdir (targetDirOf env language cache_dir output)]) := by
  intro env source_root language cache_dir output force extra_args h₁ h₂ h₃
  unfold CodeQLManager.create_database
  dsimp only
  by_cases hcase : (env.target_exists && !force) = true
  · rw [if_pos hcase]
    simp only [Bool.and_eq_true] at hcase
    have hex : env.target_exists = true := hcase.1
    have hforce : force = false := by
      have hnf := hcase.2
      cases force
      · rfl
      · exact absurd hnf (by decide)
    have hmeta : env.target_metadata = none := by
      rcases h₃ with h | h | h
      · rw [hex] at h
        exact absurd h (by decide)
      · rw [hforce] at h
        exact absurd h (by decide)
      · exact h
    rw [hmeta]
    exact _create_database_uncached_unavailable env source_root language
      env.source_fingerprint (targetDirOf env language cache_dir output) force
      extra_args h₁ h₂
  · rw [if_neg hcase]
    exact _create_database_uncached_unavailable env source_root language
      env.source_fingerprint (targetDirOf env language cache_dir output) force
      extra_args h₁ h₂

/-- Forced rebuild over an existing directory, CLI undiscoverable. -/
def c8wEnv : CreateDbEnv :=
  ⟨none, none, true, none, true, 0, "", 5, 7, "ff00ff00ff00ff00"⟩

/-- Witness for C8: the forced-rebuild call fails with the unavailable
error after exactly `rmtree` and `mkdir`. -/
theorem C8_unavailable_error_before_process_witness :
    CodeQLManager.create_database c8wEnv "/s" "go" "/c" none true [] =
      (Except.error (CodeQLErr.unavailable UNAVAILABLE_MESSAGE),
        [FsOp.rmtree (targetDirOf c8wEnv "go" "/c" none),
         FsOp.mkdir (targetDirOf c8wEnv "go" "/c" none)]) := by
  have h := C8_unavailable_error_before_process c8wEnv "/s" "go" "/c" none true
    [] rfl rfl (Or.inr (Or.inl rfl))
  rw [h]
  rfl

end Emperator

namespace Emperator

/-! ## `plan_tool_invocations` (analysis/__init__.py lines 748-866)

The only sites in the program constructing `AnalyzerCommand` values. -/

/-- `_CODEQL_LANGUAGE_SLUGS` (analysis/__init__.py lines 645-657). -/
def _CODEQL_LANGUAGE_SLUGS : List (String × String) :=
  [("Python", "python"), ("JavaScript", "javascript"),
   ("TypeScript", "javascript"), ("Java", "java"), ("C", "cpp"),
   ("C++", "cpp"), ("C#", "csharp"), ("Go", "go"), ("Ruby", "ruby"),
   ("Swift", "swift"), ("Kotlin", "java")]

/-- `_CODEQL_LANGUAGE_SLUGS[lang]` guarded by `lang in _CODEQL_LANGUAGE_SLUGS`. -/
def slugOf (language : String) : Option String :=
  (_CODEQL_LANGUAGE_SLUGS.find? (fun kv => kv.1 == language)).map Prod.snd

/-- `_get_tool_status` (lines 748-752): first status whose lower-cased name
matches. -/
def _get_tool_status (report : AnalysisReport) (tool_name : String) :
    Option ToolStatus :=
  report.tool_statuses.find?
    (fun status => lowerStr status.name == lowerStr tool_name)

/-- `plan_tool_invocations` (lines 755-866).  Python builds
`sorted({slugs})`; sorting the deduplicated slug list by the code-point
order gives the same list, since a sorted list of distinct strings is
determined by its member set. -/
def plan_tool_invocations (report : AnalysisReport) (semgrep_config : String)
    (codeql_database codeql_output_dir : String) : List AnalyzerPlan :=
  let root := resolveRoot report.project_root
  let semgrepPlans : List AnalyzerPlan :=
    match _get_tool_status report "Semgrep" with
    | none => []
    | some semgrep_status =>
        let location := semgrep_status.location.getD "system PATH"
        let reason :=
          if !semgrep_status.available then semgrep_status.hint
          else "Semgrep ready at " ++ location ++ "."
        let semgrep_command :=
          ["semgrep", "scan", "--config=" ++ semgrep_config, "--metrics=off",
           root]
        [⟨"Semgrep", semgrep_status.available, reason,
          [⟨semgrep_command,
            "Run Semgrep with the selected configuration over the repository.",
            none⟩]⟩]
  let codeqlPlans : List AnalyzerPlan :=
    match _get_tool_status report "CodeQL" with
    | none => []
    | some codeql_status =>
        let languages :=
          pySortBy (fun s => s)
            (List.dedup
              (report.languages.filterMap (fun summary => slugOf summary.language)))
        let steps : List AnalyzerCommand :=
          if languages.isEmpty then []
          else
            ⟨["codeql", "database", "create", codeql_database, "--source-root",
                root] ++
              languages.map (fun language => "--language=" ++ language),
             "Create or update the CodeQL database for the detected languages.",
             none⟩ ::
            languages.map (fun language =>
              ⟨["codeql", "database", "analyze", codeql_database,
                "codeql/" ++ language ++ "-queries", "--format=sarifv2.1.0",
                "--output",
                codeql_output_dir ++ "/codeql-" ++ language ++ ".sarif"],
               "Analyze the CodeQL database with the " ++ language ++
                 " query pack and emit a SARIF report.", none⟩)
        let ready := codeql_status.available && !languages.isEmpty
        let reason :=
          if !codeql_status.available then codeql_status.hint
          else if languages.isEmpty then
            "No CodeQL-supported languages detected. Add code or adjust mappings."
          else
            "CodeQL ready at " ++ (codeql_status.location.getD "system PATH") ++
              "."
        [⟨"CodeQL", ready, reason, steps⟩]
  semgrepPlans ++ codeqlPlans

/-- **C9**: every `AnalyzerCommand` the program constructs (all construction
sites are in `plan_tool_invocations`) satisfies the data invariants: the
command argv is non-empty, and the severity is either absent or one of
the five labels info/low/medium/high/critical (in fact always absent). -/
theorem C9_analyzer_command_invariants :
    ∀ (report : AnalysisReport)
      (semgrep_config codeql_database codeql_output_dir : String),
      ∀ plan ∈ plan_tool_invocations report semgrep_config codeql_database
          codeql_output_dir,
        ∀ step ∈ plan.steps,
          step.command ≠ [] ∧
          (step.severity = none ∨
            ∃ sev, step.severity = some sev ∧
              sev ∈ ["info", "low", "medium", "high", "critical"]) := by
  intro report sc db od plan hplan step hstep
  unfold plan_tool_invocations at hplan
  dsimp only at hplan
  rw [List.mem_append] at hplan
  rcases hplan with h | h
  · cases hgs : _get_tool_status report "Semgrep" with
    | none =>
        rw [hgs] at h
        exact absurd h (List.not_mem_nil plan)
    | some st =>
        rw [hgs] at h
        dsimp only at h
        rw [List.mem_singleton] at h
        subst h
        dsimp only at hstep
        rw [List.mem_singleton] at hstep
        subst hstep
        exact ⟨by simp, Or.inl rfl⟩
  · cases hgs : _get_tool_status report "CodeQL" with
    | none =>
        rw [hgs] at h
        exact absurd h (List.not_mem_nil plan)
    | some st =>
        rw [hgs] at h
        dsimp only at h
        rw [List.mem_singleton] at h
        subst h
        dsimp only at hstep
        by_cases hempty : (pySortBy (fun s => s)
            (List.dedup
              (report.languages.filterMap
                (fun summary => slugOf summary.language)))).isEmpty
        · rw [if_pos hempty] at hstep
          exact absurd hstep (List.not_mem_nil step)
        · rw [if_neg hempty] at hstep
          rcases List.mem_cons.mp hstep with hc | hc
          · subst hc
            exact ⟨by simp, Or.inl rfl⟩
          · obtain ⟨lang, _, hl⟩ := List.mem_map.mp hc
            subst hl
            exact ⟨by simp, Or.inl rfl⟩

/-- Report for the C9 witness. -/
def c9Report : AnalysisReport :=
  ⟨[⟨"Python", 3, ["a.py"]⟩],
   [⟨"Semgrep", true, some "/usr/bin/semgrep", "install semgrep"⟩,
    ⟨"CodeQL", true, none, "install codeql"⟩],
   [], some "/repo"⟩

def c9Step0 : AnalyzerCommand :=
  ⟨["semgrep", "scan", "--config=auto", "--metrics=off", "/repo"],
   "Run Semgrep with the selected configuration over the repository.", none⟩

def c9Plan0 : AnalyzerPlan :=
  ⟨"Semgrep", true, "Semgrep ready at /usr/bin/semgrep.", [c9Step0]⟩

/-- Witness for C9: the Semgrep plan of a concrete report, with the
invariants discharged on its (only) step. -/
theorem C9_analyzer_command_invariants_witness :
    (c9Plan0 ∈ plan_tool_invocations c9Report "auto" "artifacts/codeql-db"
      "artifacts") ∧
    (c9Step0 ∈ c9Plan0.steps) ∧
    (c9Step0.command ≠ [] ∧
      (c9Step0.severity = none ∨
        ∃ sev, c9Step0.severity = some sev ∧
          sev ∈ ["info", "low", "medium", "high", "critical"])) :=
  ⟨by decide, by decide,
   C9_analyzer_command_invariants c9Report "auto" "artifacts/codeql-db"
     "artifacts" c9Plan0 (by decide) c9Step0 (by decide)⟩

end Emperator
